import Mathlib

/-!
Shallow embedding of the logistic-planner core (truck/crate layout engine).

Source of the embedding:
* `packCrates` — the two-lane, weight-ordered floor packer with the
  single-pass stack resolver (src/unnamed/part_000, `packCrates`);
* `totalWeight` / `capacityReached` — the capacity classifier
  (src/src/App.tsx, over all input crates, inclusive boundary);
* `overlaps` — the pairwise AABB overlap detector that skips declared
  stack pairs (src/src/App.tsx).

Numbers are embedded as exact rationals (`ℚ`): the JS code performs only
`+ - * /2 /100` and comparisons on the raw inputs, so the algebraic
structure is that of exact arithmetic.  Crate ids are integers (`ℤ`), and
the optional `stackTargetId` is `Option ℤ`; JS truthiness of the field
(`!c.stackTargetId`) is modelled by `truthyId`, which is false on
`none` and on `some 0`.
-/

namespace LogisticPlanner

/-- Length unit: `'m' | 'cm'`. -/
inductive LenUnit where
  | m
  | cm
deriving DecidableEq, Repr

/-- `toMeters(v, u)`: centimeters divide by 100, meters pass through. -/
def toMeters (v : ℚ) (u : LenUnit) : ℚ :=
  match u with
  | .m => v
  | .cm => v / 100

/-- `Truck { length, width, height, unit, maxLoad? }`. -/
structure Truck where
  length : ℚ
  width : ℚ
  height : ℚ
  unit : LenUnit
  maxLoad : Option ℚ
deriving DecidableEq, Repr

/-- `Crate` record (presentation fields `colour`/`opacity` dropped; they are
never read by the core). -/
structure Crate where
  id : ℤ
  label : String
  length : ℚ
  lengthUnit : LenUnit
  width : ℚ
  widthUnit : LenUnit
  height : ℚ
  heightUnit : LenUnit
  weight : ℚ
  stackable : Bool
  stackTargetId : Option ℤ
deriving DecidableEq, Repr

/-- Centroid position `[x, y, z]` in meters. -/
structure Vec3 where
  x : ℚ
  y : ℚ
  z : ℚ
deriving DecidableEq, Repr

/-- `PlacedCrate extends Crate { position }`. -/
structure Placed extends Crate where
  position : Vec3
deriving DecidableEq, Repr

/-- JS truthiness of the optional numeric field `stackTargetId`:
`undefined` and `0` are falsy, every other number is truthy. -/
def truthyId : Option ℤ → Bool
  | none => false
  | some t => t != 0

/-- Crate length in meters (`toMeters(c.length, c.lengthUnit)`). -/
def lenM (c : Crate) : ℚ := toMeters c.length c.lengthUnit

/-- Crate width in meters. -/
def widM (c : Crate) : ℚ := toMeters c.width c.widthUnit

/-- Crate height in meters. -/
def heiM (c : Crate) : ℚ := toMeters c.height c.heightUnit

/-- Stable insertion preserving descending weight order: the new crate goes
in front of the first element whose weight it reaches (ties keep the
existing element behind the new one only when strictly lighter, so equal
weights keep original relative order). -/
def insertDesc (c : Crate) : List Crate → List Crate
  | [] => [c]
  | d :: ds => if d.weight ≤ c.weight then c :: d :: ds else d :: insertDesc c ds

/-- The stable descending-by-weight sort performed by
`.sort((a, b) => b.weight - a.weight)` (ES2019 `Array.prototype.sort` is
stable; a stable sort is uniquely determined by the key order, so any
stable implementation embeds it faithfully). -/
def sortByWeightDesc : List Crate → List Crate
  | [] => []
  | c :: cs => insertDesc c (sortByWeightDesc cs)

/-- Left / right lane marker (`'L' | 'R'`). -/
inductive Lane where
  | L
  | R
deriving DecidableEq, Repr

/-- State threaded through the floor-placement loop. -/
structure FloorState where
  placed : List Placed
  overflow : List ℤ
  curL : ℚ
  curR : ℚ
deriving DecidableEq, Repr

/-- One iteration of the floor-placement loop of `packCrates`. -/
def floorStep (truckLen truckWid truckHei : ℚ) (s : FloorState) (c : Crate) :
    FloorState :=
  let l := lenM c
  let w := widM c
  let h := heiM c
  if h > truckHei then { s with overflow := s.overflow ++ [c.id] }
  else
    let lane := if s.curL ≤ s.curR then Lane.L else Lane.R
    let xFront := if lane = Lane.L then s.curL else s.curR
    if xFront + l > truckLen ∨ w > truckWid then
      { s with overflow := s.overflow ++ [c.id] }
    else
      let zCentre := if lane = Lane.L then w / 2 else truckWid - w / 2
      { placed := s.placed ++ [⟨c, ⟨xFront + l / 2, h / 2, zCentre⟩⟩],
        overflow := s.overflow,
        curL := if lane = Lane.L then s.curL + l else s.curL,
        curR := if lane = Lane.L then s.curR else s.curR + l }

/-- State threaded through the stacking loop. -/
structure StackState where
  placed : List Placed
  overflow : List ℤ
deriving DecidableEq, Repr

/-- One iteration of the stacking loop of `packCrates`:
`placed.find(p => p.id === c.stackTargetId)`, then the height check. -/
def stackStep (truckHei : ℚ) (s : StackState) (c : Crate) : StackState :=
  match s.placed.find? (fun p => some p.id == c.stackTargetId) with
  | none => { s with overflow := s.overflow ++ [c.id] }
  | some base =>
    let h := heiM c
    let baseH := heiM base.toCrate
    let y := base.position.y + baseH / 2 + h / 2
    if y + h / 2 > truckHei then { s with overflow := s.overflow ++ [c.id] }
    else
      { s with placed :=
          s.placed ++ [⟨c, ⟨base.position.x, y, base.position.z⟩⟩] }

/-- Result record `{ placed, overflowIds }`. -/
structure PackResult where
  placed : List Placed
  overflowIds : List ℤ
deriving DecidableEq, Repr

/-- The packer `packCrates(truck, crates)`: weight-sorted two-lane floor
placement followed by the single stacking pass. -/
def packCrates (truck : Truck) (crates : List Crate) : PackResult :=
  let truckLen := toMeters truck.length truck.unit
  let truckWid := toMeters truck.width truck.unit
  let truckHei := toMeters truck.height truck.unit
  let baseQueue :=
    sortByWeightDesc (crates.filter (fun c => !truthyId c.stackTargetId))
  let fs := baseQueue.foldl (floorStep truckLen truckWid truckHei) ⟨[], [], 0, 0⟩
  let ss := (crates.filter (fun c => truthyId c.stackTargetId)).foldl
    (stackStep truckHei) ⟨fs.placed, fs.overflow⟩
  ⟨ss.placed, ss.overflow⟩

/-- `totalWeight = crates.reduce((s, c) => s + c.weight, 0)` over all input
crates (App.tsx). -/
def totalWeight (crates : List Crate) : ℚ :=
  crates.foldl (fun s c => s + c.weight) 0

/-- `capacityReached = truck.maxLoad !== undefined && totalWeight >= truck.maxLoad`. -/
def capacityReached (truck : Truck) (crates : List Crate) : Bool :=
  match truck.maxLoad with
  | none => false
  | some m => decide (totalWeight crates ≥ m)

/-- `a.id === b.stackTargetId || b.id === a.stackTargetId` — the declared
stack pair skipped by the overlap detector. -/
def stackPair (a b : Placed) : Bool :=
  (some a.id == b.stackTargetId) || (some b.id == a.stackTargetId)

/-- Strict AABB intersection test on all three axes (half-extents from the
dimensions in meters). -/
def collide (a b : Placed) : Bool :=
  decide (|a.position.x - b.position.x| < lenM a.toCrate / 2 + lenM b.toCrate / 2) &&
  decide (|a.position.y - b.position.y| < heiM a.toCrate / 2 + heiM b.toCrate / 2) &&
  decide (|a.position.z - b.position.z| < widM a.toCrate / 2 + widM b.toCrate / 2)

/-- All ordered index pairs `i < j` of a list, in the double-loop order of
the source (`for i … for j = i+1 …`). -/
def pairsOf {α : Type} : List α → List (α × α)
  | [] => []
  | a :: rest => rest.map (fun b => (a, b)) ++ pairsOf rest

/-- The pairs the overlap detector flags (before label formatting). -/
def overlapPairs (placed : List Placed) : List (Placed × Placed) :=
  (pairsOf placed).filter (fun ab => !stackPair ab.1 ab.2 && collide ab.1 ab.2)

/-- The `overlaps` diagnostic list: `` `${a.label} & ${b.label}` `` per
flagged pair. -/
def overlaps (placed : List Placed) : List String :=
  (overlapPairs placed).map (fun ab => ab.1.label ++ " & " ++ ab.2.label)

/-! ### Lemmas about the stable descending sort -/

/-- Descending weight order. -/
def SortedByWeightDesc (l : List Crate) : Prop :=
  l.Pairwise (fun a b => b.weight ≤ a.weight)

theorem insertDesc_perm (c : Crate) (l : List Crate) :
    (insertDesc c l).Perm (c :: l) := by
  induction l with
  | nil => simp [insertDesc]
  | cons d ds ih =>
    simp only [insertDesc]
    split
    · exact List.Perm.refl _
    · exact ((ih.cons d).trans (List.Perm.swap c d ds))

theorem sortByWeightDesc_perm (l : List Crate) :
    (sortByWeightDesc l).Perm l := by
  induction l with
  | nil => simp [sortByWeightDesc]
  | cons c cs ih =>
    exact (insertDesc_perm c (sortByWeightDesc cs)).trans (ih.cons c)

theorem insertDesc_sorted {l : List Crate} (c : Crate)
    (hl : SortedByWeightDesc l) : SortedByWeightDesc (insertDesc c l) := by
  induction l with
  | nil => simp [insertDesc, SortedByWeightDesc]
  | cons d ds ih =>
    rcases List.pairwise_cons.mp hl with ⟨hd, hds⟩
    simp only [insertDesc]
    split
    · rename_i hcd
      refine List.pairwise_cons.mpr ⟨?_, hl⟩
      intro e he
      rcases List.mem_cons.mp he with rfl | he
      · exact hcd
      · exact le_trans (hd e he) hcd
    · rename_i hcd
      push_neg at hcd
      refine List.pairwise_cons.mpr ⟨?_, ih hds⟩
      intro e he
      have := (insertDesc_perm c ds).mem_iff.mp he
      rcases List.mem_cons.mp this with rfl | he'
      · exact le_of_lt hcd
      · exact hd e he'

theorem sortByWeightDesc_sorted (l : List Crate) :
    SortedByWeightDesc (sortByWeightDesc l) := by
  induction l with
  | nil => exact List.Pairwise.nil
  | cons c cs ih => exact insertDesc_sorted c ih

/-- Stability of the insertion: restricted to any fixed weight the order is
untouched, with the inserted crate (if of that weight) coming first among
later occurrences. -/
theorem insertDesc_filter_weight (c : Crate) (l : List Crate) (w : ℚ) :
    (insertDesc c l).filter (fun d => d.weight == w) =
      if c.weight = w then c :: l.filter (fun d => d.weight == w)
      else l.filter (fun d => d.weight == w) := by
  induction l with
  | nil =>
    by_cases hc : c.weight = w
    · simp [insertDesc, List.filter_cons, hc]
    · simp [insertDesc, List.filter_cons, hc]
  | cons d ds ih =>
    simp only [insertDesc]
    split
    · rename_i hdc
      by_cases hc : c.weight = w
      · simp [List.filter_cons, hc]
      · simp [List.filter_cons, hc]
    · rename_i hdc
      push_neg at hdc
      by_cases hd : d.weight = w
      · by_cases hc : c.weight = w
        · exact absurd hdc (by rw [hc, hd]; exact lt_irrefl w)
        · simp [List.filter_cons, hd, hc, ih]
      · simp [List.filter_cons, hd, ih]

/-- Stability of the sort: equal-weight crates keep their original relative
order. -/
theorem sortByWeightDesc_stable (l : List Crate) (w : ℚ) :
    (sortByWeightDesc l).filter (fun d => d.weight == w) =
      l.filter (fun d => d.weight == w) := by
  induction l with
  | nil => rfl
  | cons c cs ih =>
    simp only [sortByWeightDesc]
    rw [insertDesc_filter_weight]
    by_cases hc : c.weight = w
    · simp [List.filter_cons, hc, ih]
    · simp [List.filter_cons, hc, ih]

theorem insertDesc_splice (c : Crate) (s : List Crate) :
    ∃ t1 t2, insertDesc c s = t1 ++ c :: t2 ∧ s = t1 ++ t2 := by
  induction s with
  | nil => exact ⟨[], [], rfl, rfl⟩
  | cons d ds ih =>
    simp only [insertDesc]
    split
    · exact ⟨[], d :: ds, rfl, rfl⟩
    · rcases ih with ⟨t1, t2, h1, h2⟩
      exact ⟨d :: t1, t2, by simp [h1], by simp [h2]⟩

theorem insertDesc_middle (d c : Crate) (s1 s2 : List Crate)
    (hs : SortedByWeightDesc (s1 ++ c :: s2)) :
    ∃ t1 t2, insertDesc d (s1 ++ c :: s2) = t1 ++ c :: t2 ∧
      insertDesc d (s1 ++ s2) = t1 ++ t2 := by
  induction s1 with
  | nil =>
    simp only [List.nil_append] at hs ⊢
    by_cases h : c.weight ≤ d.weight
    · refine ⟨[d], s2, by simp [insertDesc, h], ?_⟩
      cases s2 with
      | nil => simp [insertDesc]
      | cons e s2' =>
        have he : e.weight ≤ c.weight :=
          (List.pairwise_cons.mp hs).1 e (List.mem_cons_self e s2')
        simp [insertDesc, le_trans he h]
    · exact ⟨[], insertDesc d s2, by simp [insertDesc, h], by simp⟩
  | cons e s1' ih =>
    have hs' : SortedByWeightDesc (s1' ++ c :: s2) :=
      (List.pairwise_cons.mp hs).2
    by_cases h : e.weight ≤ d.weight
    · exact ⟨d :: e :: s1', s2, by simp [insertDesc, h], by simp [insertDesc, h]⟩
    · rcases ih hs' with ⟨t1, t2, h1, h2⟩
      exact ⟨e :: t1, t2, by simp [insertDesc, h, h1], by simp [insertDesc, h, h2]⟩

/-- Removing one crate from the input removes exactly that crate from the
stable sort, leaving everything else in place. -/
theorem sortByWeightDesc_splice (c : Crate) (l1 l2 : List Crate) :
    ∃ s1 s2, sortByWeightDesc (l1 ++ c :: l2) = s1 ++ c :: s2 ∧
      sortByWeightDesc (l1 ++ l2) = s1 ++ s2 := by
  induction l1 with
  | nil =>
    simp only [List.nil_append, sortByWeightDesc]
    rcases insertDesc_splice c (sortByWeightDesc l2) with ⟨t1, t2, h1, h2⟩
    exact ⟨t1, t2, h1, h2⟩
  | cons d l1' ih =>
    rcases ih with ⟨s1, s2, h1, h2⟩
    have hs : SortedByWeightDesc (s1 ++ c :: s2) := by
      rw [← h1]; exact sortByWeightDesc_sorted _
    rcases insertDesc_middle d c s1 s2 hs with ⟨t1, t2, g1, g2⟩
    refine ⟨t1, t2, ?_, ?_⟩
    · show insertDesc d (sortByWeightDesc (l1' ++ c :: l2)) = t1 ++ c :: t2
      rw [h1]; exact g1
    · show insertDesc d (sortByWeightDesc (l1' ++ l2)) = t1 ++ t2
      rw [h2]; exact g2

theorem sortByWeightDesc_splice_notMem (c : Crate) (l1 l2 s1 s2 : List Crate)
    (h1 : sortByWeightDesc (l1 ++ c :: l2) = s1 ++ c :: s2)
    (hc1 : c ∉ l1) (hc2 : c ∉ l2) : c ∉ s1 ∧ c ∉ s2 := by
  have hcount : ((l1 ++ c :: l2).count c) = 1 := by
    simp [List.count_append, List.count_cons, List.count_eq_zero.mpr hc1,
      List.count_eq_zero.mpr hc2]
  have hperm := (sortByWeightDesc_perm (l1 ++ c :: l2)).count_eq c
  rw [h1, hcount] at hperm
  simp only [List.count_append, List.count_cons_self] at hperm
  constructor
  · exact List.count_eq_zero.mp (by omega)
  · exact List.count_eq_zero.mp (by omega)

/-! ### Step characterizations and fold partition lemmas -/

theorem floorStep_eq (tl tw th : ℚ) (s : FloorState) (c : Crate) :
    floorStep tl tw th s c =
      if heiM c > th then { s with overflow := s.overflow ++ [c.id] }
      else if (if s.curL ≤ s.curR then s.curL else s.curR) + lenM c > tl ∨
          widM c > tw then
        { s with overflow := s.overflow ++ [c.id] }
      else
        { placed := s.placed ++
            [⟨c, ⟨(if s.curL ≤ s.curR then s.curL else s.curR) + lenM c / 2,
              heiM c / 2,
              if s.curL ≤ s.curR then widM c / 2 else tw - widM c / 2⟩⟩],
          overflow := s.overflow,
          curL := if s.curL ≤ s.curR then s.curL + lenM c else s.curL,
          curR := if s.curL ≤ s.curR then s.curR else s.curR + lenM c } := by
  by_cases h1 : heiM c > th
  · simp [floorStep, h1]
  · by_cases hl : s.curL ≤ s.curR
    · by_cases h2 : s.curL + lenM c > tl ∨ widM c > tw
      · simp [floorStep, h1, hl, h2]
      · simp [floorStep, h1, hl, h2]
    · by_cases h2 : s.curR + lenM c > tl ∨ widM c > tw
      · simp [floorStep, h1, hl, h2]
      · simp [floorStep, h1, hl, h2]

theorem floorFold_partition (tl tw th : ℚ) (q : List Crate) :
    ∀ s : FloorState,
    ∃ (accP : List Placed) (acc rej : List Crate),
      q.Perm (acc ++ rej) ∧
      accP.map (·.toCrate) = acc ∧
      (q.foldl (floorStep tl tw th) s).placed = s.placed ++ accP ∧
      (q.foldl (floorStep tl tw th) s).overflow = s.overflow ++ rej.map (·.id) := by
  induction q with
  | nil => exact fun s => ⟨[], [], [], by simp, rfl, by simp, by simp⟩
  | cons c q' ih =>
    intro s
    rcases ih (floorStep tl tw th s c) with ⟨accP, acc, rej, hperm, hmap, hp, ho⟩
    by_cases h1 : heiM c > th
    · have hstep : floorStep tl tw th s c =
          { s with overflow := s.overflow ++ [c.id] } := by
        rw [floorStep_eq]; simp [h1]
      rw [hstep] at hp ho
      refine ⟨accP, acc, c :: rej,
        (hperm.cons c).trans List.perm_middle.symm, hmap, ?_, ?_⟩
      · rw [List.foldl_cons, hstep]; simpa using hp
      · rw [List.foldl_cons, hstep]; rw [ho]; simp
    · by_cases h2 : (if s.curL ≤ s.curR then s.curL else s.curR) + lenM c > tl ∨
          widM c > tw
      · have hstep : floorStep tl tw th s c =
            { s with overflow := s.overflow ++ [c.id] } := by
          rw [floorStep_eq]; simp [h1, h2]
        rw [hstep] at hp ho
        refine ⟨accP, acc, c :: rej,
          (hperm.cons c).trans List.perm_middle.symm, hmap, ?_, ?_⟩
        · rw [List.foldl_cons, hstep]; simpa using hp
        · rw [List.foldl_cons, hstep]; rw [ho]; simp
      · have hstep : floorStep tl tw th s c =
            { placed := s.placed ++
                [⟨c, ⟨(if s.curL ≤ s.curR then s.curL else s.curR) + lenM c / 2,
                  heiM c / 2,
                  if s.curL ≤ s.curR then widM c / 2 else tw - widM c / 2⟩⟩],
              overflow := s.overflow,
              curL := if s.curL ≤ s.curR then s.curL + lenM c else s.curL,
              curR := if s.curL ≤ s.curR then s.curR else s.curR + lenM c } := by
          rw [floorStep_eq]; simp [h1, h2]
        rw [hstep] at hp ho
        refine ⟨⟨c, ⟨(if s.curL ≤ s.curR then s.curL else s.curR) + lenM c / 2,
            heiM c / 2,
            if s.curL ≤ s.curR then widM c / 2 else tw - widM c / 2⟩⟩ :: accP,
          c :: acc, rej, hperm.cons c, by simp [hmap], ?_, ?_⟩
        · rw [List.foldl_cons, hstep]; rw [hp]; simp
        · rw [List.foldl_cons, hstep]; rw [ho]

theorem stackStep_eq (th : ℚ) (s : StackState) (c : Crate) :
    stackStep th s c =
      match s.placed.find? (fun p => some p.id == c.stackTargetId) with
      | none => { s with overflow := s.overflow ++ [c.id] }
      | some base =>
        if base.position.y + heiM base.toCrate / 2 + heiM c / 2 + heiM c / 2 >
            th then
          { s with overflow := s.overflow ++ [c.id] }
        else
          { s with placed := s.placed ++
              [⟨c, ⟨base.position.x,
                base.position.y + heiM base.toCrate / 2 + heiM c / 2,
                base.position.z⟩⟩] } := by
  unfold stackStep
  cases s.placed.find? (fun p => some p.id == c.stackTargetId) with
  | none => rfl
  | some base => rfl

theorem stackFold_partition (th : ℚ) (q : List Crate) :
    ∀ s : StackState,
    ∃ (accP : List Placed) (acc rej : List Crate),
      q.Perm (acc ++ rej) ∧
      accP.map (·.toCrate) = acc ∧
      (q.foldl (stackStep th) s).placed = s.placed ++ accP ∧
      (q.foldl (stackStep th) s).overflow = s.overflow ++ rej.map (·.id) := by
  induction q with
  | nil => exact fun s => ⟨[], [], [], by simp, rfl, by simp, by simp⟩
  | cons c q' ih =>
    intro s
    rcases ih (stackStep th s c) with ⟨accP, acc, rej, hperm, hmap, hp, ho⟩
    rcases hfind : s.placed.find? (fun p => some p.id == c.stackTargetId) with
      _ | base
    · have hstep : stackStep th s c =
          { s with overflow := s.overflow ++ [c.id] } := by
        rw [stackStep_eq, hfind]
      rw [hstep] at hp ho
      refine ⟨accP, acc, c :: rej, (hperm.cons c).trans List.perm_middle.symm,
        hmap, ?_, ?_⟩
      · rw [List.foldl_cons, hstep]; simpa using hp
      · rw [List.foldl_cons, hstep]; rw [ho]; simp
    · by_cases hh : base.position.y + heiM base.toCrate / 2 + heiM c / 2 +
          heiM c / 2 > th
      · have hstep : stackStep th s c =
            { s with overflow := s.overflow ++ [c.id] } := by
          rw [stackStep_eq, hfind]; simp [hh]
        rw [hstep] at hp ho
        refine ⟨accP, acc, c :: rej, (hperm.cons c).trans List.perm_middle.symm,
          hmap, ?_, ?_⟩
        · rw [List.foldl_cons, hstep]; simpa using hp
        · rw [List.foldl_cons, hstep]; rw [ho]; simp
      · have hstep : stackStep th s c =
            { s with placed := s.placed ++
                [⟨c, ⟨base.position.x,
                  base.position.y + heiM base.toCrate / 2 + heiM c / 2,
                  base.position.z⟩⟩] } := by
          rw [stackStep_eq, hfind]; simp [hh]
        rw [hstep] at hp ho
        refine ⟨⟨c, ⟨base.position.x,
            base.position.y + heiM base.toCrate / 2 + heiM c / 2,
            base.position.z⟩⟩ :: accP, c :: acc, rej, hperm.cons c,
          by simp [hmap], ?_, ?_⟩
        · rw [List.foldl_cons, hstep]; rw [hp]; simp
        · rw [List.foldl_cons, hstep]; rw [ho]

/-- The packer partitions the input: every crate contributes either one
`Placed` record (carrying its own field values) or its id in `overflowIds`. -/
theorem packCrates_partition (t : Truck) (l : List Crate) :
    ∃ (accFP accSP : List Placed) (accF rejF accS rejS : List Crate),
      (l.filter (fun c => !truthyId c.stackTargetId)).Perm (accF ++ rejF) ∧
      (l.filter (fun c => truthyId c.stackTargetId)).Perm (accS ++ rejS) ∧
      accFP.map (·.toCrate) = accF ∧ accSP.map (·.toCrate) = accS ∧
      (packCrates t l).placed = accFP ++ accSP ∧
      (packCrates t l).overflowIds = rejF.map (·.id) ++ rejS.map (·.id) := by
  obtain ⟨accFP, accF, rejF, hpF, hmF, hplF, hoF⟩ :=
    floorFold_partition (toMeters t.length t.unit) (toMeters t.width t.unit)
      (toMeters t.height t.unit)
      (sortByWeightDesc (l.filter (fun c => !truthyId c.stackTargetId)))
      ⟨[], [], 0, 0⟩
  obtain ⟨accSP, accS, rejS, hpS, hmS, hplS, hoS⟩ :=
    stackFold_partition (toMeters t.height t.unit)
      (l.filter (fun c => truthyId c.stackTargetId))
      ⟨((sortByWeightDesc (l.filter (fun c => !truthyId c.stackTargetId))).foldl
          (floorStep (toMeters t.length t.unit) (toMeters t.width t.unit)
            (toMeters t.height t.unit)) ⟨[], [], 0, 0⟩).placed,
        ((sortByWeightDesc (l.filter (fun c => !truthyId c.stackTargetId))).foldl
          (floorStep (toMeters t.length t.unit) (toMeters t.width t.unit)
            (toMeters t.height t.unit)) ⟨[], [], 0, 0⟩).overflow⟩
  refine ⟨accFP, accSP, accF, rejF, accS, rejS,
    (sortByWeightDesc_perm _).symm.trans hpF, hpS, hmF, hmS, ?_, ?_⟩
  · show ((l.filter (fun c => truthyId c.stackTargetId)).foldl
        (stackStep (toMeters t.height t.unit)) _).placed = accFP ++ accSP
    rw [hplS]
    simp only at hplF ⊢
    rw [hplF]
    simp
  · show ((l.filter (fun c => truthyId c.stackTargetId)).foldl
        (stackStep (toMeters t.height t.unit)) _).overflow =
      rejF.map (·.id) ++ rejS.map (·.id)
    rw [hoS]
    simp only at hoF ⊢
    rw [hoF]
    simp

/-- Id accounting: the placed ids together with the overflow ids are a
permutation of the input ids. -/
theorem packCrates_ids_perm (t : Truck) (l : List Crate) :
    ((packCrates t l).placed.map (·.id) ++ (packCrates t l).overflowIds).Perm
      (l.map (·.id)) := by
  obtain ⟨accFP, accSP, accF, rejF, accS, rejS, hF, hS, hmF, hmS, hpl, ho⟩ :=
    packCrates_partition t l
  rw [hpl, ho]
  have h1 : (accFP ++ accSP).map (fun p => p.id) =
      accF.map (·.id) ++ accS.map (·.id) := by
    rw [List.map_append, ← hmF, ← hmS, List.map_map, List.map_map]; rfl
  rw [h1, List.perm_iff_count]
  intro a
  have c1 := (hF.map (fun c => c.id)).count_eq a
  have c2 := (hS.map (fun c => c.id)).count_eq a
  have c3 := ((List.filter_append_perm
    (fun c => truthyId c.stackTargetId) l).map (fun c => c.id)).count_eq a
  simp only [List.map_append, List.count_append] at c1 c2 c3 ⊢
  omega

theorem packCrates_ids_nodup (t : Truck) (l : List Crate)
    (h : (l.map (·.id)).Nodup) :
    ((packCrates t l).placed.map (·.id) ++ (packCrates t l).overflowIds).Nodup :=
  ((packCrates_ids_perm t l).nodup_iff).mpr h

theorem totalWeight_eq_sum (l : List Crate) :
    totalWeight l = (l.map (·.weight)).sum := by
  have key : ∀ (q : List Crate) (a : ℚ),
      q.foldl (fun s c => s + c.weight) a = a + (q.map (·.weight)).sum := by
    intro q
    induction q with
    | nil => intro a; simp
    | cons c q' ih => intro a; simp [ih, add_assoc]
  simpa using key l 0

/-! ### Concrete fixtures for witnesses and counterexamples -/

/-- Default truck: `10 × 2.5 × 2.6 m`, max load 1000 kg. -/
def truckA : Truck := ⟨10, 5/2, 13/5, .m, some 1000⟩

/-- Floor crate, `1×1×1 m`, 100 kg. -/
def crate1 : Crate := ⟨1, "A", 1, .m, 1, .m, 1, .m, 100, true, none⟩

/-- Floor crate, `1×1×1 m`, 90 kg. -/
def crate2 : Crate := ⟨2, "B", 1, .m, 1, .m, 1, .m, 90, true, none⟩

/-- Floor crate taller than the truck (3 m > 2.6 m): always overflows. -/
def crateTall : Crate := ⟨3, "T", 1, .m, 1, .m, 3, .m, 50, true, none⟩

/-- Crate stacked on `crate1`, height 0.5 m. -/
def crateStack : Crate := ⟨4, "S", 1, .m, 1, .m, 1/2, .m, 10, true, some 1⟩

/-- Crate stacked on `crate1` but 3 m long: protrudes past the truck walls. -/
def crateLong : Crate := ⟨5, "L", 3, .m, 1, .m, 1/2, .m, 10, true, some 1⟩

/-- Crate stacked on the stacked crate `crateStack`. -/
def crateOnStack : Crate := ⟨6, "O", 1, .m, 1, .m, 1/2, .m, 5, true, some 4⟩

/-- Floor-by-truthiness crate: `stackTargetId = 0`. -/
def crateZero : Crate := ⟨7, "Z", 1, .m, 1, .m, 1, .m, 60, true, some 0⟩

/-! ### Claim theorems -/

/-- C4. Capacity classification: `totalWeight` is the sum of `weight` over
all input crates — including those that end up in `overflowIds`, whose
weights together with the placed weights reconstitute the total — and
`capacityReached` is true iff `maxLoad` is defined and
`totalWeight ≥ maxLoad` (inclusive boundary). -/
theorem capacity_classification (t : Truck) (l : List Crate) :
    totalWeight l = (l.map (·.weight)).sum ∧
    (capacityReached t l = true ↔
      ∃ m, t.maxLoad = some m ∧ m ≤ totalWeight l) ∧
    ∃ rej : List Crate,
      (packCrates t l).overflowIds = rej.map (·.id) ∧
      totalWeight l =
        ((packCrates t l).placed.map (·.weight)).sum +
          (rej.map (·.weight)).sum := by
  refine ⟨totalWeight_eq_sum l, ?_, ?_⟩
  · unfold capacityReached
    cases hml : t.maxLoad with
    | none => simp
    | some m =>
      simp only [decide_eq_true_eq]
      constructor
      · intro h; exact ⟨m, rfl, h⟩
      · rintro ⟨m', hm', h⟩
        cases Option.some.inj hm'
        exact h
  · obtain ⟨accFP, accSP, accF, rejF, accS, rejS, hF, hS, hmF, hmS, hpl, ho⟩ :=
      packCrates_partition t l
    refine ⟨rejF ++ rejS, by simp [ho], ?_⟩
    have hsum1 : ((l.filter (fun c => !truthyId c.stackTargetId)).map
        (·.weight)).sum = (accF.map (·.weight)).sum + (rejF.map (·.weight)).sum := by
      have := (hF.map (·.weight)).sum_eq
      simpa [List.map_append] using this
    have hsum2 : ((l.filter (fun c => truthyId c.stackTargetId)).map
        (·.weight)).sum = (accS.map (·.weight)).sum + (rejS.map (·.weight)).sum := by
      have := (hS.map (·.weight)).sum_eq
      simpa [List.map_append] using this
    have hsplit : (l.map (·.weight)).sum =
        ((l.filter (fun c => truthyId c.stackTargetId)).map (·.weight)).sum +
          ((l.filter (fun c => !truthyId c.stackTargetId)).map (·.weight)).sum := by
      have := ((List.filter_append_perm
        (fun c => truthyId c.stackTargetId) l).map (·.weight)).sum_eq
      simpa [List.map_append] using this.symm
    have hplaced : ((packCrates t l).placed.map (·.weight)).sum =
        (accF.map (·.weight)).sum + (accS.map (·.weight)).sum := by
      rw [hpl, List.map_append, List.sum_append, ← hmF, ← hmS,
        List.map_map, List.map_map]
      rfl
    rw [totalWeight_eq_sum, hsplit, hsum1, hsum2, hplaced, List.map_append,
      List.sum_append]
    ring

/-- C7. Placed/overflow partition: the packer is total, the placed ids and
overflow ids together are a permutation of the input ids, and with unique
input ids every input id lands in exactly one of the two output lists. -/
theorem placed_overflow_partition (t : Truck) (l : List Crate)
    (h : (l.map (·.id)).Nodup) :
    ((packCrates t l).placed.map (·.id) ++ (packCrates t l).overflowIds).Perm
      (l.map (·.id)) ∧
    ∀ i ∈ l.map (·.id),
      (i ∈ (packCrates t l).placed.map (·.id) ↔
        i ∉ (packCrates t l).overflowIds) := by
  refine ⟨packCrates_ids_perm t l, ?_⟩
  intro i hi
  have hnd := packCrates_ids_nodup t l h
  have hmem : i ∈ (packCrates t l).placed.map (·.id) ++
      (packCrates t l).overflowIds :=
    ((packCrates_ids_perm t l).mem_iff).mpr hi
  constructor
  · intro hp ho
    exact (List.nodup_append.mp hnd).2.2 hp ho
  · intro ho
    rcases List.mem_append.mp hmem with h1 | h2
    · exact h1
    · exact absurd h2 ho

/-- Witness for C7 at a concrete input (two floor crates, one overflowing
tall crate, one stacked crate). -/
theorem placed_overflow_partition_witness :
    (([crate1, crate2, crateTall, crateStack].map (·.id)).Nodup) ∧
    (((packCrates truckA [crate1, crate2, crateTall, crateStack]).placed.map
        (·.id) ++
      (packCrates truckA [crate1, crate2, crateTall, crateStack]).overflowIds).Perm
      ([crate1, crate2, crateTall, crateStack].map (·.id)) ∧
    ∀ i ∈ [crate1, crate2, crateTall, crateStack].map (·.id),
      (i ∈ (packCrates truckA [crate1, crate2, crateTall, crateStack]).placed.map
          (·.id) ↔
        i ∉ (packCrates truckA [crate1, crate2, crateTall, crateStack]).overflowIds)) :=
  ⟨by decide,
    placed_overflow_partition truckA [crate1, crate2, crateTall, crateStack]
      (by decide)⟩

/-- C2. Two-lane floor placement: both running totals start at 0 and the
floor crates are folded in stable weight-descending order (third conjunct,
definitional); a rejected crate advances neither total and places nothing
(first conjunct); an accepted crate uses the smaller total (tie favors
left) as its front coordinate `x0` and advances exactly the chosen lane's
total by its length (second conjunct). -/
theorem two_lane_floor_placement (tl tw th : ℚ) (s : FloorState) (c : Crate)
    (t : Truck) (l : List Crate) :
    ((heiM c > th ∨ min s.curL s.curR + lenM c > tl ∨ widM c > tw) →
      (floorStep tl tw th s c).curL = s.curL ∧
      (floorStep tl tw th s c).curR = s.curR ∧
      (floorStep tl tw th s c).placed = s.placed ∧
      (floorStep tl tw th s c).overflow = s.overflow ++ [c.id]) ∧
    (¬(heiM c > th ∨ min s.curL s.curR + lenM c > tl ∨ widM c > tw) →
      (floorStep tl tw th s c).placed = s.placed ++
        [⟨c, ⟨min s.curL s.curR + lenM c / 2, heiM c / 2,
          if s.curL ≤ s.curR then widM c / 2 else tw - widM c / 2⟩⟩] ∧
      (floorStep tl tw th s c).overflow = s.overflow ∧
      (if s.curL ≤ s.curR then
        (floorStep tl tw th s c).curL = s.curL + lenM c ∧
        (floorStep tl tw th s c).curR = s.curR
      else
        (floorStep tl tw th s c).curL = s.curL ∧
        (floorStep tl tw th s c).curR = s.curR + lenM c)) ∧
    packCrates t l =
      ⟨((l.filter (fun c => truthyId c.stackTargetId)).foldl
          (stackStep (toMeters t.height t.unit))
          ⟨((sortByWeightDesc (l.filter (fun c => !truthyId c.stackTargetId))).foldl
              (floorStep (toMeters t.length t.unit) (toMeters t.width t.unit)
                (toMeters t.height t.unit)) ⟨[], [], 0, 0⟩).placed,
            ((sortByWeightDesc (l.filter (fun c => !truthyId c.stackTargetId))).foldl
              (floorStep (toMeters t.length t.unit) (toMeters t.width t.unit)
                (toMeters t.height t.unit)) ⟨[], [], 0, 0⟩).overflow⟩).placed,
        ((l.filter (fun c => truthyId c.stackTargetId)).foldl
          (stackStep (toMeters t.height t.unit))
          ⟨((sortByWeightDesc (l.filter (fun c => !truthyId c.stackTargetId))).foldl
              (floorStep (toMeters t.length t.unit) (toMeters t.width t.unit)
                (toMeters t.height t.unit)) ⟨[], [], 0, 0⟩).placed,
            ((sortByWeightDesc (l.filter (fun c => !truthyId c.stackTargetId))).foldl
              (floorStep (toMeters t.length t.unit) (toMeters t.width t.unit)
                (toMeters t.height t.unit)) ⟨[], [], 0, 0⟩).overflow⟩).overflow⟩ := by
  refine ⟨?_, ?_, rfl⟩
  · intro h
    rw [floorStep_eq]
    by_cases h1 : heiM c > th
    · simp [h1]
    · have h23 : (if s.curL ≤ s.curR then s.curL else s.curR) + lenM c > tl ∨
          widM c > tw := by
        rcases h with h1' | h2 | h3
        · exact absurd h1' h1
        · left; rwa [min_def] at h2
        · right; exact h3
      simp [h1, h23]
  · intro h
    push_neg at h
    obtain ⟨h1, h2, h3⟩ := h
    have h1' : ¬ heiM c > th := not_lt.mpr h1
    have h23 : ¬ ((if s.curL ≤ s.curR then s.curL else s.curR) + lenM c > tl ∨
        widM c > tw) := by
      rw [← min_def]
      push_neg
      exact ⟨h2, h3⟩
    rw [floorStep_eq]
    simp only [if_neg h1', if_neg h23]
    by_cases hl : s.curL ≤ s.curR
    · simp [hl, min_def]
    · simp [hl, min_def]

/-- Placement of `crate1` (the first floor crate): accepted into the left
lane at front coordinate 0, advancing only `curL`. -/
theorem two_lane_floor_placement_witness :
    ¬(heiM crate1 > (13:ℚ)/5 ∨
        min (0:ℚ) 0 + lenM crate1 > 10 ∨ widM crate1 > (5:ℚ)/2) ∧
    (floorStep 10 (5/2) (13/5) ⟨[], [], 0, 0⟩ crate1).placed =
      [⟨crate1, ⟨1/2, 1/2, 1/2⟩⟩] ∧
    (floorStep 10 (5/2) (13/5) ⟨[], [], 0, 0⟩ crate1).curL = 1 ∧
    (floorStep 10 (5/2) (13/5) ⟨[], [], 0, 0⟩ crate1).curR = 0 := by
  have h := (two_lane_floor_placement 10 (5/2) (13/5) ⟨[], [], 0, 0⟩ crate1
    truckA []).2.1 (by norm_num [crate1, lenM, widM, heiM, toMeters])
  obtain ⟨hp, ho, hc⟩ := h
  rw [if_pos (le_refl (0:ℚ))] at hc
  refine ⟨by norm_num [crate1, lenM, widM, heiM, toMeters], ?_, ?_, ?_⟩
  · rw [hp]; norm_num [crate1, lenM, widM, heiM, toMeters]
  · rw [hc.1]; norm_num [crate1, lenM, toMeters]
  · rw [hc.2]

/-- C5. Stacked-crate position: once the base lookup succeeds, the crate is
centred above the base (`x`, `z` copied) at
`y = base.y + base.height/2 + ownHeight/2`, and it overflows exactly when
`y + ownHeight/2 > truckHeight`. -/
theorem stacked_crate_position (th : ℚ) (s : StackState) (c : Crate)
    (base : Placed)
    (hfind : s.placed.find? (fun p => some p.id == c.stackTargetId) =
      some base) :
    (¬ base.position.y + heiM base.toCrate / 2 + heiM c / 2 + heiM c / 2 > th →
      stackStep th s c = { s with placed := s.placed ++
        [⟨c, ⟨base.position.x,
          base.position.y + heiM base.toCrate / 2 + heiM c / 2,
          base.position.z⟩⟩] }) ∧
    (base.position.y + heiM base.toCrate / 2 + heiM c / 2 + heiM c / 2 > th →
      stackStep th s c = { s with overflow := s.overflow ++ [c.id] }) := by
  rw [stackStep_eq, hfind]
  constructor
  · intro h; simp [h]
  · intro h; simp [h]

/-- Witness for C5 — the spec's Scenario D: a 0.5 m crate stacked on a 1 m
base placed at `y = 0.5` receives `y = 1.25`. -/
theorem stacked_crate_position_witness :
    (([⟨crate1, ⟨1/2, 1/2, 1/2⟩⟩] : List Placed).find?
        (fun p => some p.id == crateStack.stackTargetId) =
      some ⟨crate1, ⟨1/2, 1/2, 1/2⟩⟩) ∧
    ¬ (1:ℚ)/2 + heiM crate1 / 2 + heiM crateStack / 2 + heiM crateStack / 2 >
      (13:ℚ)/5 ∧
    (stackStep (13/5) ⟨[⟨crate1, ⟨1/2, 1/2, 1/2⟩⟩], []⟩ crateStack).placed =
      [⟨crate1, ⟨1/2, 1/2, 1/2⟩⟩, ⟨crateStack, ⟨1/2, 5/4, 1/2⟩⟩] := by
  have h := (stacked_crate_position (13/5) ⟨[⟨crate1, ⟨1/2, 1/2, 1/2⟩⟩], []⟩
    crateStack ⟨crate1, ⟨1/2, 1/2, 1/2⟩⟩
    (by norm_num [List.find?, crate1, crateStack])).1
    (by norm_num [crate1, crateStack, heiM, toMeters])
  refine ⟨by norm_num [List.find?, crate1, crateStack],
    by norm_num [crate1, crateStack, heiM, toMeters], ?_⟩
  rw [h]; norm_num [crate1, crateStack, heiM, toMeters]

/-! ### Overlap detector lemmas -/

theorem mem_pairsOf_iff {α : Type} (a b : α) (l : List α) :
    (a, b) ∈ pairsOf l ↔ [a, b].Sublist l := by
  induction l with
  | nil => simp [pairsOf]
  | cons x rest ih =>
    simp only [pairsOf, List.mem_append, List.mem_map, ih]
    constructor
    · rintro (⟨y, hy, he⟩ | h)
      · cases he
        exact List.Sublist.cons₂ _ (List.singleton_sublist.mpr hy)
      · exact List.Sublist.cons x h
    · intro h
      cases h with
      | cons _ h' => exact Or.inr h'
      | cons₂ _ h' => exact Or.inl ⟨b, List.singleton_sublist.mp h', rfl⟩

theorem pairsOf_fst_mem {α : Type} {a b : α} {l : List α}
    (h : (a, b) ∈ pairsOf l) : a ∈ l :=
  ((mem_pairsOf_iff a b l).mp h).subset (by simp)

theorem pairsOf_nodup {α : Type} {l : List α} (h : l.Nodup) :
    (pairsOf l).Nodup := by
  induction l with
  | nil => exact List.Pairwise.nil
  | cons x rest ih =>
    rcases List.nodup_cons.mp h with ⟨hx, hrest⟩
    refine List.Nodup.append ?_ (ih hrest) ?_
    · exact hrest.map (fun _ _ h' => congrArg Prod.snd h')
    · intro ab hmap hpair
      rcases List.mem_map.mp hmap with ⟨y, _, rfl⟩
      exact hx (pairsOf_fst_mem hpair)

theorem sublist_pair_antisymm {α : Type} {a b : α} {l : List α}
    (hnd : l.Nodup) (h1 : [a, b].Sublist l) (h2 : [b, a].Sublist l) :
    a = b := by
  induction l with
  | nil => exact absurd (List.sublist_nil.mp h1) (by simp)
  | cons x rest ih =>
    rcases List.nodup_cons.mp hnd with ⟨hx, hrest⟩
    cases h1 with
    | cons _ h1' =>
      cases h2 with
      | cons _ h2' => exact ih hrest h1' h2'
      | cons₂ _ h2' =>
        exact absurd (List.singleton_sublist.mp
          ((List.sublist_cons_self a [b]).trans h1')) hx
    | cons₂ _ h1' =>
      cases h2 with
      | cons _ h2' =>
        exact absurd (List.singleton_sublist.mp
          ((List.sublist_cons_self b [a]).trans h2')) hx
      | cons₂ _ h2' => rfl

/-- C6. Overlap reporting: a pair is flagged iff it occurs (in order) among
the placed crates, is not a declared stack pair, and the centers are
strictly closer than the summed half-extents on all three axes; the
collide and stack-pair relations are symmetric; and with distinct ids each
unordered pair is reported at most once. -/
theorem overlap_reporting (P : List Placed) (hnd : (P.map (·.id)).Nodup) :
    (∀ a b : Placed, (a, b) ∈ overlapPairs P ↔
      ([a, b].Sublist P ∧ stackPair a b = false ∧
        (|a.position.x - b.position.x| <
            lenM a.toCrate / 2 + lenM b.toCrate / 2 ∧
         |a.position.y - b.position.y| <
            heiM a.toCrate / 2 + heiM b.toCrate / 2 ∧
         |a.position.z - b.position.z| <
            widM a.toCrate / 2 + widM b.toCrate / 2))) ∧
    (∀ a b : Placed, collide a b = collide b a ∧ stackPair a b = stackPair b a) ∧
    (overlapPairs P).Nodup ∧
    (∀ a b : Placed, (a, b) ∈ overlapPairs P → (b, a) ∉ overlapPairs P) := by
  have hP : P.Nodup := List.Nodup.of_map _ hnd
  refine ⟨?_, ?_, ?_, ?_⟩
  · intro a b
    rw [overlapPairs, List.mem_filter, mem_pairsOf_iff]
    simp only [Bool.and_eq_true, Bool.not_eq_true', collide, decide_eq_true_eq,
      and_assoc]
  · intro a b
    constructor
    · have hx : (|a.position.x - b.position.x| <
          lenM a.toCrate / 2 + lenM b.toCrate / 2) ↔
          (|b.position.x - a.position.x| <
            lenM b.toCrate / 2 + lenM a.toCrate / 2) := by
        rw [abs_sub_comm, add_comm]
      have hy : (|a.position.y - b.position.y| <
          heiM a.toCrate / 2 + heiM b.toCrate / 2) ↔
          (|b.position.y - a.position.y| <
            heiM b.toCrate / 2 + heiM a.toCrate / 2) := by
        rw [abs_sub_comm, add_comm]
      have hz : (|a.position.z - b.position.z| <
          widM a.toCrate / 2 + widM b.toCrate / 2) ↔
          (|b.position.z - a.position.z| <
            widM b.toCrate / 2 + widM a.toCrate / 2) := by
        rw [abs_sub_comm, add_comm]
      rw [collide, collide, decide_eq_decide.mpr hx, decide_eq_decide.mpr hy,
        decide_eq_decide.mpr hz]
    · rw [stackPair, stackPair, Bool.or_comm]
  · exact (pairsOf_nodup hP).filter _
  · intro a b h1 h2
    have s1 := (mem_pairsOf_iff a b P).mp (List.mem_of_mem_filter h1)
    have s2 := (mem_pairsOf_iff b a P).mp (List.mem_of_mem_filter h2)
    have hab : a = b := sublist_pair_antisymm hP s1 s2
    subst hab
    have : ([a, a] : List Placed).Nodup := s1.nodup hP
    simp at this

/-- Witness for C6: two identically positioned floor crates are flagged. -/
theorem overlap_reporting_witness :
    (([(⟨crate1, ⟨1/2, 1/2, 1/2⟩⟩ : Placed),
        ⟨crate2, ⟨1/2, 1/2, 1/2⟩⟩].map (·.id)).Nodup) ∧
    ((⟨crate1, ⟨1/2, 1/2, 1/2⟩⟩ : Placed), (⟨crate2, ⟨1/2, 1/2, 1/2⟩⟩ : Placed)) ∈
      overlapPairs [⟨crate1, ⟨1/2, 1/2, 1/2⟩⟩, ⟨crate2, ⟨1/2, 1/2, 1/2⟩⟩] := by
  refine ⟨by decide, ?_⟩
  exact ((overlap_reporting
      [⟨crate1, ⟨1/2, 1/2, 1/2⟩⟩, ⟨crate2, ⟨1/2, 1/2, 1/2⟩⟩] (by decide)).1
      ⟨crate1, ⟨1/2, 1/2, 1/2⟩⟩ ⟨crate2, ⟨1/2, 1/2, 1/2⟩⟩).mpr
    ⟨List.Sublist.refl _, by norm_num [stackPair, crate1, crate2],
      by norm_num [crate1, crate2, lenM, widM, heiM, toMeters]⟩

/-! ### Falsy `stackTargetId = 0` (JS truthiness) -/

/-- Replace a literal `stackTargetId = 0` (falsy in JS) by `none`. -/
def clearZero (c : Crate) : Crate :=
  if c.stackTargetId = some 0 then { c with stackTargetId := none } else c

/-- `clearZero` lifted to placed crates. -/
def clearZeroPlaced (p : Placed) : Placed :=
  ⟨clearZero p.toCrate, p.position⟩

theorem clearZero_id (c : Crate) : (clearZero c).id = c.id := by
  unfold clearZero; split <;> rfl

theorem clearZero_weight (c : Crate) : (clearZero c).weight = c.weight := by
  unfold clearZero; split <;> rfl

theorem clearZero_lenM (c : Crate) : lenM (clearZero c) = lenM c := by
  unfold clearZero; split <;> rfl

theorem clearZero_widM (c : Crate) : widM (clearZero c) = widM c := by
  unfold clearZero; split <;> rfl

theorem clearZero_heiM (c : Crate) : heiM (clearZero c) = heiM c := by
  unfold clearZero; split <;> rfl

theorem clearZero_truthy (c : Crate) :
    truthyId (clearZero c).stackTargetId = truthyId c.stackTargetId := by
  unfold clearZero
  split
  · rename_i h; rw [h]; rfl
  · rfl

theorem clearZero_of_truthy (c : Crate)
    (h : truthyId c.stackTargetId = true) : clearZero c = c := by
  unfold clearZero
  split
  · rename_i h'; rw [h'] at h; simp [truthyId] at h
  · rfl

theorem filter_map_clearZero (p : Crate → Bool)
    (hp : ∀ c, p (clearZero c) = p c) (l : List Crate) :
    (l.map clearZero).filter p = (l.filter p).map clearZero := by
  induction l with
  | nil => rfl
  | cons c cs ih =>
    simp only [List.map_cons, List.filter_cons, hp c]
    by_cases h : p c = true
    · simp [h, ih]
    · simp [h, ih]

theorem insertDesc_map_clearZero (c : Crate) (s : List Crate) :
    insertDesc (clearZero c) (s.map clearZero) = (insertDesc c s).map clearZero := by
  induction s with
  | nil => rfl
  | cons d ds ih =>
    simp only [List.map_cons, insertDesc, clearZero_weight]
    by_cases h : d.weight ≤ c.weight
    · simp [h]
    · simp [h, ih]

theorem sortByWeightDesc_map_clearZero (l : List Crate) :
    sortByWeightDesc (l.map clearZero) = (sortByWeightDesc l).map clearZero := by
  induction l with
  | nil => rfl
  | cons c cs ih =>
    simp only [List.map_cons, sortByWeightDesc, ih, insertDesc_map_clearZero]

theorem floorStep_map_clearZero (tl tw th : ℚ) (s : FloorState) (c : Crate) :
    floorStep tl tw th
      ⟨s.placed.map clearZeroPlaced, s.overflow, s.curL, s.curR⟩ (clearZero c) =
    ⟨(floorStep tl tw th s c).placed.map clearZeroPlaced,
      (floorStep tl tw th s c).overflow,
      (floorStep tl tw th s c).curL, (floorStep tl tw th s c).curR⟩ := by
  rw [floorStep_eq, floorStep_eq]
  simp only [clearZero_lenM, clearZero_widM, clearZero_heiM, clearZero_id]
  by_cases h1 : heiM c > th
  · simp [h1]
  · by_cases h2 : (if s.curL ≤ s.curR then s.curL else s.curR) + lenM c > tl ∨
        widM c > tw
    · simp [h1, h2]
    · simp [h1, h2, clearZeroPlaced]

theorem floorFold_map_clearZero (tl tw th : ℚ) (q : List Crate) :
    ∀ s : FloorState,
    (q.map clearZero).foldl (floorStep tl tw th)
      ⟨s.placed.map clearZeroPlaced, s.overflow, s.curL, s.curR⟩ =
    ⟨(q.foldl (floorStep tl tw th) s).placed.map clearZeroPlaced,
      (q.foldl (floorStep tl tw th) s).overflow,
      (q.foldl (floorStep tl tw th) s).curL,
      (q.foldl (floorStep tl tw th) s).curR⟩ := by
  induction q with
  | nil => intro s; rfl
  | cons c q' ih =>
    intro s
    rw [List.map_cons, List.foldl_cons, List.foldl_cons,
      floorStep_map_clearZero, ih (floorStep tl tw th s c)]

theorem find?_map_clearZeroPlaced (placed : List Placed) (tid : Option ℤ) :
    (placed.map clearZeroPlaced).find? (fun p => some p.id == tid) =
      (placed.find? (fun p => some p.id == tid)).map clearZeroPlaced := by
  induction placed with
  | nil => rfl
  | cons p ps ih =>
    simp only [List.map_cons, List.find?_cons]
    have hid : (clearZeroPlaced p).id = p.id := clearZero_id p.toCrate
    rw [hid]
    by_cases h : (some p.id == tid) = true
    · simp [h]
    · simp only [Bool.not_eq_true] at h
      simp [h, ih]

theorem stackStep_map_clearZero (th : ℚ) (s : StackState) (c : Crate)
    (hc : truthyId c.stackTargetId = true) :
    stackStep th ⟨s.placed.map clearZeroPlaced, s.overflow⟩ c =
    ⟨(stackStep th s c).placed.map clearZeroPlaced,
      (stackStep th s c).overflow⟩ := by
  rw [stackStep_eq, stackStep_eq]
  simp only [find?_map_clearZeroPlaced]
  cases h : s.placed.find? (fun p => some p.id == c.stackTargetId) with
  | none => simp
  | some base =>
    simp only [Option.map_some']
    have hpos : (clearZeroPlaced base).position = base.position := rfl
    have hhei : heiM (clearZeroPlaced base).toCrate = heiM base.toCrate :=
      clearZero_heiM base.toCrate
    rw [hpos, hhei]
    by_cases hh : base.position.y + heiM base.toCrate / 2 + heiM c / 2 +
        heiM c / 2 > th
    · simp [hh]
    · simp only [if_neg hh]
      simp [clearZeroPlaced, clearZero_of_truthy c hc]

theorem stackFold_map_clearZero (th : ℚ) (q : List Crate)
    (hq : ∀ c ∈ q, truthyId c.stackTargetId = true) :
    ∀ s : StackState,
    q.foldl (stackStep th) ⟨s.placed.map clearZeroPlaced, s.overflow⟩ =
    ⟨(q.foldl (stackStep th) s).placed.map clearZeroPlaced,
      (q.foldl (stackStep th) s).overflow⟩ := by
  induction q with
  | nil => intro s; rfl
  | cons c q' ih =>
    intro s
    rw [List.foldl_cons, List.foldl_cons,
      stackStep_map_clearZero th s c (hq c (by simp)),
      ih (fun d hd => hq d (by simp [hd])) (stackStep th s c)]

/-- C10. Falsy stack reference: a crate with `stackTargetId = 0` passes the
floor filter (JS truthiness) and is never seen by the stacking pass;
consequently normalizing every `some 0` to `none` leaves the packer's
output unchanged (up to the same normalization of the carried records). -/
theorem falsy_stack_target (t : Truck) (l : List Crate) (c : Crate) :
    (c.stackTargetId = some 0 →
      (!truthyId c.stackTargetId) = true ∧ truthyId c.stackTargetId = false) ∧
    packCrates t (l.map clearZero) =
      ⟨(packCrates t l).placed.map clearZeroPlaced,
        (packCrates t l).overflowIds⟩ := by
  constructor
  · intro h; rw [h]; exact ⟨rfl, rfl⟩
  · show PackResult.mk _ _ = _
    have hfloor : (l.map clearZero).filter (fun c => !truthyId c.stackTargetId) =
        (l.filter (fun c => !truthyId c.stackTargetId)).map clearZero :=
      filter_map_clearZero _ (fun c => by rw [clearZero_truthy]) l
    have hstack : (l.map clearZero).filter (fun c => truthyId c.stackTargetId) =
        (l.filter (fun c => truthyId c.stackTargetId)).map clearZero :=
      filter_map_clearZero _ (fun c => clearZero_truthy c) l
    have hstack2 : (l.filter (fun c => truthyId c.stackTargetId)).map clearZero =
        l.filter (fun c => truthyId c.stackTargetId) := by
      apply List.map_congr_left ?_ |>.trans (List.map_id _)
      intro d hd
      exact clearZero_of_truthy d (List.mem_filter.mp hd).2
    unfold packCrates
    rw [hfloor, hstack, hstack2, sortByWeightDesc_map_clearZero]
    have hff := floorFold_map_clearZero (toMeters t.length t.unit)
      (toMeters t.width t.unit) (toMeters t.height t.unit)
      (sortByWeightDesc (l.filter (fun c => !truthyId c.stackTargetId)))
      ⟨[], [], 0, 0⟩
    simp only [List.map_nil] at hff
    rw [hff]
    exact congrArg (fun st : StackState => PackResult.mk st.placed st.overflow)
      (stackFold_map_clearZero (toMeters t.height t.unit)
        (l.filter (fun c => truthyId c.stackTargetId))
        (fun d hd => (List.mem_filter.mp hd).2)
        ⟨((sortByWeightDesc (l.filter (fun c => !truthyId c.stackTargetId))).foldl
            (floorStep (toMeters t.length t.unit) (toMeters t.width t.unit)
              (toMeters t.height t.unit)) ⟨[], [], 0, 0⟩).placed,
          ((sortByWeightDesc (l.filter (fun c => !truthyId c.stackTargetId))).foldl
            (floorStep (toMeters t.length t.unit) (toMeters t.width t.unit)
              (toMeters t.height t.unit)) ⟨[], [], 0, 0⟩).overflow⟩)

/-- Witness for C10: the crate with `stackTargetId = 0` is floor-placed
exactly like its `none` counterpart. -/
theorem falsy_stack_target_witness :
    (crateZero.stackTargetId = some 0 ∧
      (!truthyId crateZero.stackTargetId) = true) ∧
    packCrates truckA ([crateZero].map clearZero) =
      ⟨(packCrates truckA [crateZero]).placed.map clearZeroPlaced,
        (packCrates truckA [crateZero]).overflowIds⟩ :=
  ⟨⟨rfl, ((falsy_stack_target truckA [crateZero] crateZero).1 rfl).1⟩,
    (falsy_stack_target truckA [crateZero] crateZero).2⟩

/-! ### Stacking lookup domain (C3) -/

/-- Counterexample to C3 as stated: `crateOnStack` declares the stacked
crate `crateStack` as its base, yet it is accepted into `placed` (the
lookup runs over all crates placed so far, which after the earlier
iteration includes `crateStack`). -/
theorem single_level_stacking_cex :
    truthyId crateStack.stackTargetId = true ∧
    crateOnStack.stackTargetId = some crateStack.id ∧
    (6 : ℤ) ∈ (packCrates truckA
      [crate1, crateStack, crateOnStack]).placed.map (·.id) ∧
    (6 : ℤ) ∉ (packCrates truckA [crate1, crateStack, crateOnStack]).overflowIds := by
  refine ⟨rfl, rfl, ?_, ?_⟩ <;>
    norm_num [packCrates, truckA, crate1, crateStack, crateOnStack,
      sortByWeightDesc, insertDesc, floorStep, stackStep, truthyId,
      List.find?, lenM, widM, heiM, toMeters,
      show ((1:ℤ) == 4) = false from by decide,
      show ((4:ℤ) == 4) = true from by decide]

/-- C3 (amended). The base of a stacked crate is looked up among all
crates placed so far — the floor crates and any stacked crates accepted
earlier in the pass; if no such placed crate carries the referenced id
(base overflowed, or the reference names a crate not yet placed) the crate
is classified as overflow; if one does, the crate is accepted whenever the
height check passes, even when that base is itself a stacked crate. -/
theorem single_level_stacking_amended (th : ℚ) (s : StackState) (c : Crate) :
    (s.placed.find? (fun p => some p.id == c.stackTargetId) = none ↔
      ¬ ∃ p ∈ s.placed, some p.id = c.stackTargetId) ∧
    (s.placed.find? (fun p => some p.id == c.stackTargetId) = none →
      stackStep th s c = { s with overflow := s.overflow ++ [c.id] }) ∧
    (∀ base, s.placed.find? (fun p => some p.id == c.stackTargetId) = some base →
      ¬ base.position.y + heiM base.toCrate / 2 + heiM c / 2 + heiM c / 2 > th →
      stackStep th s c = { s with placed := s.placed ++
        [⟨c, ⟨base.position.x,
          base.position.y + heiM base.toCrate / 2 + heiM c / 2,
          base.position.z⟩⟩] }) := by
  refine ⟨?_, ?_, ?_⟩
  · rw [List.find?_eq_none]
    constructor
    · intro h ⟨p, hp, he⟩
      exact h p hp (beq_iff_eq.mpr he)
    · intro h p hp hb
      exact h ⟨p, hp, beq_iff_eq.mp hb⟩
  · intro h
    rw [stackStep_eq, h]
  · intro base hb hh
    rw [stackStep_eq, hb]
    simp [hh]

/-- Witness for the amended C3: `crateOnStack` stacked onto the placed
record of the stacked `crateStack` is accepted at `y = 1.75`. -/
theorem single_level_stacking_amended_witness :
    (([⟨crate1, ⟨1/2, 1/2, 1/2⟩⟩, ⟨crateStack, ⟨1/2, 5/4, 1/2⟩⟩] :
        List Placed).find?
      (fun p => some p.id == crateOnStack.stackTargetId) =
        some ⟨crateStack, ⟨1/2, 5/4, 1/2⟩⟩) ∧
    ¬ ((5:ℚ)/4 + heiM crateStack / 2 + heiM crateOnStack / 2 +
        heiM crateOnStack / 2 > (13:ℚ)/5) ∧
    (stackStep (13/5)
        ⟨[⟨crate1, ⟨1/2, 1/2, 1/2⟩⟩, ⟨crateStack, ⟨1/2, 5/4, 1/2⟩⟩], []⟩
        crateOnStack).placed =
      [⟨crate1, ⟨1/2, 1/2, 1/2⟩⟩, ⟨crateStack, ⟨1/2, 5/4, 1/2⟩⟩,
        ⟨crateOnStack, ⟨1/2, 7/4, 1/2⟩⟩] := by
  have h := (single_level_stacking_amended (13/5)
      ⟨[⟨crate1, ⟨1/2, 1/2, 1/2⟩⟩, ⟨crateStack, ⟨1/2, 5/4, 1/2⟩⟩], []⟩
      crateOnStack).2.2 ⟨crateStack, ⟨1/2, 5/4, 1/2⟩⟩
    (by norm_num [List.find?, crate1, crateStack, crateOnStack,
      show ((1:ℤ) == 4) = false from by decide,
      show ((4:ℤ) == 4) = true from by decide])
    (by norm_num [crateStack, crateOnStack, heiM, toMeters])
  refine ⟨by norm_num [List.find?, crate1, crateStack, crateOnStack,
      show ((1:ℤ) == 4) = false from by decide,
      show ((4:ℤ) == 4) = true from by decide],
    by norm_num [crateStack, crateOnStack, heiM, toMeters], ?_⟩
  rw [h]
  norm_num [crateStack, crateOnStack, heiM, toMeters]

/-! ### Containment (C1) -/

/-- The crate's bounding box fits `[0, th]` on the vertical axis. -/
def yContained (th : ℚ) (p : Placed) : Prop :=
  0 ≤ p.position.y - heiM p.toCrate / 2 ∧
  p.position.y + heiM p.toCrate / 2 ≤ th

/-- The crate's bounding box fits `[0,tl] × [0,th] × [0,tw]` (the claim's
containment property). -/
def fullContained (tl tw th : ℚ) (p : Placed) : Prop :=
  (0 ≤ p.position.x - lenM p.toCrate / 2 ∧
    p.position.x + lenM p.toCrate / 2 ≤ tl) ∧
  yContained th p ∧
  (0 ≤ p.position.z - widM p.toCrate / 2 ∧
    p.position.z + widM p.toCrate / 2 ≤ tw)

theorem floorFold_contained (tl tw th : ℚ) (q : List Crate) :
    ∀ s : FloorState,
    (∀ c ∈ q, 0 ≤ lenM c) → (∀ c ∈ q, 0 ≤ heiM c) →
    0 ≤ s.curL → 0 ≤ s.curR →
    (∀ p ∈ s.placed, fullContained tl tw th p ∧ 0 ≤ heiM p.toCrate) →
    (0 ≤ (q.foldl (floorStep tl tw th) s).curL ∧
     0 ≤ (q.foldl (floorStep tl tw th) s).curR ∧
     ∀ p ∈ (q.foldl (floorStep tl tw th) s).placed,
       fullContained tl tw th p ∧ 0 ≤ heiM p.toCrate) := by
  induction q with
  | nil => exact fun s _ _ hL hR hP => ⟨hL, hR, hP⟩
  | cons c q' ih =>
    intro s hlen hhei hL hR hP
    have hlen' : ∀ d ∈ q', 0 ≤ lenM d := fun d hd => hlen d (by simp [hd])
    have hhei' : ∀ d ∈ q', 0 ≤ heiM d := fun d hd => hhei d (by simp [hd])
    have hlc : 0 ≤ lenM c := hlen c (by simp)
    have hhc : 0 ≤ heiM c := hhei c (by simp)
    rw [List.foldl_cons]
    by_cases h1 : heiM c > th
    · have hstep : floorStep tl tw th s c =
          { s with overflow := s.overflow ++ [c.id] } := by
        rw [floorStep_eq]; simp [h1]
      rw [hstep]
      exact ih _ hlen' hhei' hL hR hP
    · by_cases h2 : (if s.curL ≤ s.curR then s.curL else s.curR) + lenM c > tl ∨
          widM c > tw
      · have hstep : floorStep tl tw th s c =
            { s with overflow := s.overflow ++ [c.id] } := by
          rw [floorStep_eq]; simp [h1, h2]
        rw [hstep]
        exact ih _ hlen' hhei' hL hR hP
      · have hstep : floorStep tl tw th s c =
            { placed := s.placed ++
                [⟨c, ⟨(if s.curL ≤ s.curR then s.curL else s.curR) + lenM c / 2,
                  heiM c / 2,
                  if s.curL ≤ s.curR then widM c / 2 else tw - widM c / 2⟩⟩],
              overflow := s.overflow,
              curL := if s.curL ≤ s.curR then s.curL + lenM c else s.curL,
              curR := if s.curL ≤ s.curR then s.curR else s.curR + lenM c } := by
          rw [floorStep_eq]; simp [h1, h2]
      -- facts extracted from the passed checks
        push_neg at h2
        obtain ⟨hxfit, hwfit⟩ := h2
        have hhfit : heiM c ≤ th := not_lt.mp h1
        have hx0 : 0 ≤ (if s.curL ≤ s.curR then s.curL else s.curR) := by
          by_cases hl : s.curL ≤ s.curR
          · simpa [hl] using hL
          · simpa [hl] using hR
        rw [hstep]
        apply ih _ hlen' hhei'
        · show (0:ℚ) ≤ if s.curL ≤ s.curR then s.curL + lenM c else s.curL
          by_cases hl : s.curL ≤ s.curR
          · rw [if_pos hl]; linarith
          · rw [if_neg hl]; linarith
        · show (0:ℚ) ≤ if s.curL ≤ s.curR then s.curR else s.curR + lenM c
          by_cases hl : s.curL ≤ s.curR
          · rw [if_pos hl]; linarith
          · rw [if_neg hl]; linarith
        · intro p hp
          simp only [List.mem_append, List.mem_singleton] at hp
          rcases hp with hp | rfl
          · exact hP p hp
          · refine ⟨⟨⟨?_, ?_⟩, ⟨?_, ?_⟩, ?_⟩, hhc⟩
            · show 0 ≤ ((if s.curL ≤ s.curR then s.curL else s.curR) +
                lenM c / 2) - lenM c / 2
              linarith [hx0]
            · show ((if s.curL ≤ s.curR then s.curL else s.curR) +
                lenM c / 2) + lenM c / 2 ≤ tl
              linarith [hxfit]
            · show 0 ≤ heiM c / 2 - heiM c / 2
              linarith
            · show heiM c / 2 + heiM c / 2 ≤ th
              linarith [hhfit]
            · by_cases hl : s.curL ≤ s.curR
              · refine ⟨?_, ?_⟩
                · show 0 ≤ (if s.curL ≤ s.curR then widM c / 2
                      else tw - widM c / 2) - widM c / 2
                  rw [if_pos hl]; linarith
                · show (if s.curL ≤ s.curR then widM c / 2
                      else tw - widM c / 2) + widM c / 2 ≤ tw
                  rw [if_pos hl]; linarith [hwfit]
              · refine ⟨?_, ?_⟩
                · show 0 ≤ (if s.curL ≤ s.curR then widM c / 2
                      else tw - widM c / 2) - widM c / 2
                  rw [if_neg hl]; linarith [hwfit]
                · show (if s.curL ≤ s.curR then widM c / 2
                      else tw - widM c / 2) + widM c / 2 ≤ tw
                  rw [if_neg hl]; linarith

theorem stackFold_contained (tl tw th : ℚ) (q : List Crate) :
    ∀ s : StackState,
    (∀ c ∈ q, 0 ≤ heiM c) →
    (∀ c ∈ q, truthyId c.stackTargetId = true) →
    (∀ p ∈ s.placed, yContained th p ∧ 0 ≤ heiM p.toCrate ∧
      ((!truthyId p.stackTargetId) = true → fullContained tl tw th p)) →
    ∀ p ∈ (q.foldl (stackStep th) s).placed,
      yContained th p ∧ 0 ≤ heiM p.toCrate ∧
      ((!truthyId p.stackTargetId) = true → fullContained tl tw th p) := by
  induction q with
  | nil => exact fun s _ _ hP => hP
  | cons c q' ih =>
    intro s hhei htru hP
    have hhei' : ∀ d ∈ q', 0 ≤ heiM d := fun d hd => hhei d (by simp [hd])
    have htru' : ∀ d ∈ q', truthyId d.stackTargetId = true :=
      fun d hd => htru d (by simp [hd])
    have hhc : 0 ≤ heiM c := hhei c (by simp)
    have htc : truthyId c.stackTargetId = true := htru c (by simp)
    rw [List.foldl_cons]
    rcases hfind : s.placed.find? (fun p => some p.id == c.stackTargetId) with
      _ | base
    · have hstep : stackStep th s c =
          { s with overflow := s.overflow ++ [c.id] } := by
        rw [stackStep_eq, hfind]
      rw [hstep]
      exact ih _ hhei' htru' hP
    · by_cases hh : base.position.y + heiM base.toCrate / 2 + heiM c / 2 +
          heiM c / 2 > th
      · have hstep : stackStep th s c =
            { s with overflow := s.overflow ++ [c.id] } := by
          rw [stackStep_eq, hfind]; simp [hh]
        rw [hstep]
        exact ih _ hhei' htru' hP
      · have hstep : stackStep th s c =
            { s with placed := s.placed ++
                [⟨c, ⟨base.position.x,
                  base.position.y + heiM base.toCrate / 2 + heiM c / 2,
                  base.position.z⟩⟩] } := by
          rw [stackStep_eq, hfind]; simp [hh]
        have hbase := hP base (List.mem_of_find?_eq_some hfind)
        rw [hstep]
        apply ih _ hhei' htru'
        intro p hp
        simp only [List.mem_append, List.mem_singleton] at hp
        rcases hp with hp | rfl
        · exact hP p hp
        · refine ⟨⟨?_, ?_⟩, hhc, ?_⟩
          · show 0 ≤ (base.position.y + heiM base.toCrate / 2 + heiM c / 2) -
              heiM c / 2
            have hy := hbase.1.1
            have hb := hbase.2.1
            linarith
          · show (base.position.y + heiM base.toCrate / 2 + heiM c / 2) +
              heiM c / 2 ≤ th
            linarith [not_lt.mp hh]
          · intro habs
            rw [htc] at habs
            simp at habs

/-- C1 (amended). Containment: every placed crate's bounding box fits the
truck on the vertical axis, and every placed floor crate's box fits on all
three axes; a stacked crate inherits the base's `x`/`z` center without any
horizontal check, so its box may protrude horizontally (see the
counterexample). -/
theorem containment_amended (t : Truck) (l : List Crate)
    (hlen : ∀ c ∈ l, 0 ≤ lenM c) (hhei : ∀ c ∈ l, 0 ≤ heiM c) :
    ∀ p ∈ (packCrates t l).placed,
      yContained (toMeters t.height t.unit) p ∧
      ((!truthyId p.stackTargetId) = true →
        fullContained (toMeters t.length t.unit) (toMeters t.width t.unit)
          (toMeters t.height t.unit) p) := by
  intro p hp
  have hfsub : ∀ c ∈ sortByWeightDesc
      (l.filter (fun c => !truthyId c.stackTargetId)), c ∈ l := fun c hc =>
    List.mem_of_mem_filter ((sortByWeightDesc_perm _).subset hc)
  have hfloor := floorFold_contained (toMeters t.length t.unit)
    (toMeters t.width t.unit) (toMeters t.height t.unit)
    (sortByWeightDesc (l.filter (fun c => !truthyId c.stackTargetId)))
    ⟨[], [], 0, 0⟩ (fun c hc => hlen c (hfsub c hc))
    (fun c hc => hhei c (hfsub c hc)) (le_refl 0) (le_refl 0) (by simp)
  have hstack := stackFold_contained (toMeters t.length t.unit)
    (toMeters t.width t.unit) (toMeters t.height t.unit)
    (l.filter (fun c => truthyId c.stackTargetId))
    ⟨((sortByWeightDesc (l.filter (fun c => !truthyId c.stackTargetId))).foldl
        (floorStep (toMeters t.length t.unit) (toMeters t.width t.unit)
          (toMeters t.height t.unit)) ⟨[], [], 0, 0⟩).placed,
      ((sortByWeightDesc (l.filter (fun c => !truthyId c.stackTargetId))).foldl
        (floorStep (toMeters t.length t.unit) (toMeters t.width t.unit)
          (toMeters t.height t.unit)) ⟨[], [], 0, 0⟩).overflow⟩
    (fun c hc => hhei c (List.mem_of_mem_filter hc))
    (fun c hc => (List.mem_filter.mp hc).2)
    (fun p hp => ⟨(hfloor.2.2 p hp).1.2.1, (hfloor.2.2 p hp).2,
      fun _ => (hfloor.2.2 p hp).1⟩)
  exact ⟨(hstack p hp).1, (hstack p hp).2.2⟩

/-- Counterexample to C1 as stated: the stacked `crateLong` (3 m long on a
1 m base) is accepted, but its bounding box sticks out past `x = 0`. -/
theorem containment_cex :
    ¬ ∀ p ∈ (packCrates truckA [crate1, crateLong]).placed,
        fullContained 10 (5/2) (13/5) p := by
  intro hall
  have hmem : (⟨crateLong, ⟨1/2, 5/4, 1/2⟩⟩ : Placed) ∈
      (packCrates truckA [crate1, crateLong]).placed := by
    norm_num [packCrates, truckA, crate1, crateLong, sortByWeightDesc,
      insertDesc, floorStep, stackStep, truthyId, List.find?, lenM, widM,
      heiM, toMeters, show ((1:ℤ) == 1) = true from by decide]
  have h := hall _ hmem
  norm_num [fullContained, yContained, crateLong, lenM, widM, heiM,
    toMeters] at h

/-- Witness for the amended C1 on a floor crate and a stacked crate. -/
theorem containment_amended_witness :
    (∀ c ∈ [crate1, crateStack], 0 ≤ lenM c) ∧
    (∀ c ∈ [crate1, crateStack], 0 ≤ heiM c) ∧
    ∀ p ∈ (packCrates truckA [crate1, crateStack]).placed,
      yContained (toMeters truckA.height truckA.unit) p ∧
      ((!truthyId p.stackTargetId) = true →
        fullContained (toMeters truckA.length truckA.unit)
          (toMeters truckA.width truckA.unit)
          (toMeters truckA.height truckA.unit) p) :=
  ⟨by norm_num [crate1, crateStack, lenM, toMeters],
    by norm_num [crate1, crateStack, heiM, toMeters],
    containment_amended truckA [crate1, crateStack]
      (by norm_num [crate1, crateStack, lenM, toMeters])
      (by norm_num [crate1, crateStack, heiM, toMeters])⟩

/-! ### Lane-instrumented floor placement (C8) -/

/-- Floor-placement state that also records, as ghost data, which lane
(`'L'`/`'R'` in the source) each accepted crate was assigned to. -/
structure FloorStateL where
  placed : List (Placed × Lane)
  overflow : List ℤ
  curL : ℚ
  curR : ℚ
deriving DecidableEq, Repr

/-- `floorStep` with the chosen lane recorded next to the placed crate. -/
def floorStepL (tl tw th : ℚ) (s : FloorStateL) (c : Crate) : FloorStateL :=
  let l := lenM c
  let w := widM c
  let h := heiM c
  if h > th then { s with overflow := s.overflow ++ [c.id] }
  else
    let lane := if s.curL ≤ s.curR then Lane.L else Lane.R
    let xFront := if lane = Lane.L then s.curL else s.curR
    if xFront + l > tl ∨ w > tw then
      { s with overflow := s.overflow ++ [c.id] }
    else
      let zCentre := if lane = Lane.L then w / 2 else tw - w / 2
      { placed := s.placed ++ [(⟨c, ⟨xFront + l / 2, h / 2, zCentre⟩⟩, lane)],
        overflow := s.overflow,
        curL := if lane = Lane.L then s.curL + l else s.curL,
        curR := if lane = Lane.L then s.curR else s.curR + l }

theorem floorStepL_eq (tl tw th : ℚ) (s : FloorStateL) (c : Crate) :
    floorStepL tl tw th s c =
      if heiM c > th then { s with overflow := s.overflow ++ [c.id] }
      else if (if s.curL ≤ s.curR then s.curL else s.curR) + lenM c > tl ∨
          widM c > tw then
        { s with overflow := s.overflow ++ [c.id] }
      else
        { placed := s.placed ++
            [(⟨c, ⟨(if s.curL ≤ s.curR then s.curL else s.curR) + lenM c / 2,
              heiM c / 2,
              if s.curL ≤ s.curR then widM c / 2 else tw - widM c / 2⟩⟩,
              if s.curL ≤ s.curR then Lane.L else Lane.R)],
          overflow := s.overflow,
          curL := if s.curL ≤ s.curR then s.curL + lenM c else s.curL,
          curR := if s.curL ≤ s.curR then s.curR else s.curR + lenM c } := by
  by_cases h1 : heiM c > th
  · simp [floorStepL, h1]
  · by_cases hl : s.curL ≤ s.curR
    · by_cases h2 : s.curL + lenM c > tl ∨ widM c > tw
      · simp [floorStepL, h1, hl, h2]
      · simp [floorStepL, h1, hl, h2]
    · by_cases h2 : s.curR + lenM c > tl ∨ widM c > tw
      · simp [floorStepL, h1, hl, h2]
      · simp [floorStepL, h1, hl, h2]

/-- Erasing the ghost lane recovers `floorStep`. -/
theorem floorStep_eraseLane (tl tw th : ℚ) (s : FloorStateL) (c : Crate) :
    floorStep tl tw th ⟨s.placed.map Prod.fst, s.overflow, s.curL, s.curR⟩ c =
      ⟨(floorStepL tl tw th s c).placed.map Prod.fst,
        (floorStepL tl tw th s c).overflow,
        (floorStepL tl tw th s c).curL, (floorStepL tl tw th s c).curR⟩ := by
  rw [floorStep_eq, floorStepL_eq]
  by_cases h1 : heiM c > th
  · simp [h1]
  · by_cases h2 : (if s.curL ≤ s.curR then s.curL else s.curR) + lenM c > tl ∨
        widM c > tw
    · simp [h1, h2]
    · simp [h1, h2]

theorem floorFold_eraseLane (tl tw th : ℚ) (q : List Crate) :
    ∀ s : FloorStateL,
    q.foldl (floorStep tl tw th)
      ⟨s.placed.map Prod.fst, s.overflow, s.curL, s.curR⟩ =
    ⟨(q.foldl (floorStepL tl tw th) s).placed.map Prod.fst,
      (q.foldl (floorStepL tl tw th) s).overflow,
      (q.foldl (floorStepL tl tw th) s).curL,
      (q.foldl (floorStepL tl tw th) s).curR⟩ := by
  induction q with
  | nil => intro s; rfl
  | cons c q' ih =>
    intro s
    rw [List.foldl_cons, List.foldl_cons, floorStep_eraseLane,
      ih (floorStepL tl tw th s c)]

/-- Lane-respecting order relation: same-lane pairs, in placement order,
have non-decreasing `x` and non-increasing weight. -/
def LaneOrd (pc qc : Placed × Lane) : Prop :=
  pc.2 = qc.2 → (pc.1.position.x ≤ qc.1.position.x ∧ qc.1.weight ≤ pc.1.weight)

theorem floorFoldL_pairwise (tl tw th : ℚ) (q : List Crate) :
    ∀ s : FloorStateL,
    (∀ c ∈ q, 0 ≤ lenM c) →
    SortedByWeightDesc q →
    (∀ pc ∈ s.placed, ∀ c ∈ q, c.weight ≤ pc.1.weight) →
    (∀ pc ∈ s.placed, 0 ≤ lenM pc.1.toCrate ∧
      (pc.2 = Lane.L → pc.1.position.x + lenM pc.1.toCrate / 2 ≤ s.curL) ∧
      (pc.2 = Lane.R → pc.1.position.x + lenM pc.1.toCrate / 2 ≤ s.curR)) →
    s.placed.Pairwise LaneOrd →
    (q.foldl (floorStepL tl tw th) s).placed.Pairwise LaneOrd := by
  induction q with
  | nil => exact fun s _ _ _ _ hPW => hPW
  | cons c q' ih =>
    intro s hlen hsort hdom hbnd hPW
    have hlen' : ∀ d ∈ q', 0 ≤ lenM d := fun d hd => hlen d (by simp [hd])
    have hlc : 0 ≤ lenM c := hlen c (by simp)
    have hsort' : SortedByWeightDesc q' := (List.pairwise_cons.mp hsort).2
    have hheadsort : ∀ d ∈ q', d.weight ≤ c.weight :=
      (List.pairwise_cons.mp hsort).1
    rw [List.foldl_cons]
    by_cases h1 : heiM c > th
    · have hstep : floorStepL tl tw th s c =
          { s with overflow := s.overflow ++ [c.id] } := by
        rw [floorStepL_eq]; simp [h1]
      rw [hstep]
      exact ih _ hlen' hsort'
        (fun pc hpc d hd => hdom pc hpc d (by simp [hd])) hbnd hPW
    · by_cases h2 : (if s.curL ≤ s.curR then s.curL else s.curR) + lenM c > tl ∨
          widM c > tw
      · have hstep : floorStepL tl tw th s c =
            { s with overflow := s.overflow ++ [c.id] } := by
          rw [floorStepL_eq]; simp [h1, h2]
        rw [hstep]
        exact ih _ hlen' hsort'
          (fun pc hpc d hd => hdom pc hpc d (by simp [hd])) hbnd hPW
      · have hstep : floorStepL tl tw th s c =
            { placed := s.placed ++
                [(⟨c, ⟨(if s.curL ≤ s.curR then s.curL else s.curR) + lenM c / 2,
                  heiM c / 2,
                  if s.curL ≤ s.curR then widM c / 2 else tw - widM c / 2⟩⟩,
                  if s.curL ≤ s.curR then Lane.L else Lane.R)],
              overflow := s.overflow,
              curL := if s.curL ≤ s.curR then s.curL + lenM c else s.curL,
              curR := if s.curL ≤ s.curR then s.curR else s.curR + lenM c } := by
          rw [floorStepL_eq]; simp [h1, h2]
        rw [hstep]
        apply ih _ hlen' hsort'
        · intro pc hpc d hd
          simp only [List.mem_append, List.mem_singleton] at hpc
          rcases hpc with hpc | rfl
          · exact hdom pc hpc d (by simp [hd])
          · exact hheadsort d hd
        · intro pc hpc
          simp only [List.mem_append, List.mem_singleton] at hpc
          rcases hpc with hpc | rfl
          · obtain ⟨hplen, hbL, hbR⟩ := hbnd pc hpc
            refine ⟨hplen, ?_, ?_⟩
            · intro hLL
              show pc.1.position.x + lenM pc.1.toCrate / 2 ≤
                if s.curL ≤ s.curR then s.curL + lenM c else s.curL
              by_cases hl : s.curL ≤ s.curR
              · rw [if_pos hl]; linarith [hbL hLL]
              · rw [if_neg hl]; exact hbL hLL
            · intro hRR
              show pc.1.position.x + lenM pc.1.toCrate / 2 ≤
                if s.curL ≤ s.curR then s.curR else s.curR + lenM c
              by_cases hl : s.curL ≤ s.curR
              · rw [if_pos hl]; exact hbR hRR
              · rw [if_neg hl]; linarith [hbR hRR]
          · by_cases hl : s.curL ≤ s.curR
            · refine ⟨hlc, ?_, ?_⟩
              · intro _
                show ((if s.curL ≤ s.curR then s.curL else s.curR) +
                    lenM c / 2) + lenM c / 2 ≤
                  if s.curL ≤ s.curR then s.curL + lenM c else s.curL
                rw [if_pos hl, if_pos hl]; linarith
              · intro habs
                simp [hl] at habs
            · refine ⟨hlc, ?_, ?_⟩
              · intro habs
                simp [hl] at habs
              · intro _
                show ((if s.curL ≤ s.curR then s.curL else s.curR) +
                    lenM c / 2) + lenM c / 2 ≤
                  if s.curL ≤ s.curR then s.curR else s.curR + lenM c
                rw [if_neg hl, if_neg hl]; linarith
        · rw [List.pairwise_append]
          refine ⟨hPW, by simp, ?_⟩
          intro pc hpc e he
          simp only [List.mem_singleton] at he
          subst he
          intro hsame
          obtain ⟨hplen, hbL, hbR⟩ := hbnd pc hpc
          constructor
          · by_cases hl : s.curL ≤ s.curR
            · have hLL : pc.2 = Lane.L := by
                rw [hsame]; simp [hl]
              have := hbL hLL
              show pc.1.position.x ≤
                (if s.curL ≤ s.curR then s.curL else s.curR) + lenM c / 2
              rw [if_pos hl]; linarith
            · have hRR : pc.2 = Lane.R := by
                rw [hsame]; simp [hl]
              have := hbR hRR
              show pc.1.position.x ≤
                (if s.curL ≤ s.curR then s.curL else s.curR) + lenM c / 2
              rw [if_neg hl]; linarith
          · exact hdom pc hpc c (by simp)

/-- Two members of a list are equal or occur in one of the two orders. -/
theorem mem_mem_sublist_or {α : Type} {a b : α} {l : List α}
    (ha : a ∈ l) (hb : b ∈ l) :
    a = b ∨ [a, b].Sublist l ∨ [b, a].Sublist l := by
  induction l with
  | nil => cases ha
  | cons x rest ih =>
    by_cases hax : a = x
    · subst hax
      rcases List.mem_cons.mp hb with hbx | hb'
      · exact Or.inl hbx.symm
      · exact Or.inr (Or.inl
          (List.Sublist.cons₂ _ (List.singleton_sublist.mpr hb')))
    · have ha' : a ∈ rest := by
        rcases List.mem_cons.mp ha with h | h
        · exact absurd h hax
        · exact h
      rcases List.mem_cons.mp hb with hbx | hb'
      · subst hbx
        exact Or.inr (Or.inr
          (List.Sublist.cons₂ _ (List.singleton_sublist.mpr ha')))
      · rcases ih ha' hb' with h | h | h
        · exact Or.inl h
        · exact Or.inr (Or.inl (List.Sublist.cons _ h))
        · exact Or.inr (Or.inr (List.Sublist.cons _ h))

/-- C8. Weight ordering per lane: the floor queue is the stable descending
sort by weight (sorted, first conjunct; stable, second conjunct); the
packer's floor phase is the lane-recording fold up to erasure (third
conjunct); and two floor crates assigned the same lane with strictly
increasing `x` have non-increasing weight (fourth conjunct). -/
theorem same_lane_weight_ordering (t : Truck) (l : List Crate)
    (hlen : ∀ c ∈ l, 0 ≤ lenM c) :
    SortedByWeightDesc
      (sortByWeightDesc (l.filter (fun c => !truthyId c.stackTargetId))) ∧
    (∀ w : ℚ,
      (sortByWeightDesc (l.filter (fun c => !truthyId c.stackTargetId))).filter
          (fun d => d.weight == w) =
        (l.filter (fun c => !truthyId c.stackTargetId)).filter
          (fun d => d.weight == w)) ∧
    (∃ rest, (packCrates t l).placed =
      ((sortByWeightDesc (l.filter (fun c => !truthyId c.stackTargetId))).foldl
        (floorStepL (toMeters t.length t.unit) (toMeters t.width t.unit)
          (toMeters t.height t.unit)) ⟨[], [], 0, 0⟩).placed.map Prod.fst ++
        rest) ∧
    (∀ pc qc : Placed × Lane,
      pc ∈ ((sortByWeightDesc (l.filter (fun c => !truthyId c.stackTargetId))).foldl
        (floorStepL (toMeters t.length t.unit) (toMeters t.width t.unit)
          (toMeters t.height t.unit)) ⟨[], [], 0, 0⟩).placed →
      qc ∈ ((sortByWeightDesc (l.filter (fun c => !truthyId c.stackTargetId))).foldl
        (floorStepL (toMeters t.length t.unit) (toMeters t.width t.unit)
          (toMeters t.height t.unit)) ⟨[], [], 0, 0⟩).placed →
      pc.2 = qc.2 → pc.1.position.x < qc.1.position.x →
      qc.1.weight ≤ pc.1.weight) := by
  have herase := floorFold_eraseLane (toMeters t.length t.unit)
    (toMeters t.width t.unit) (toMeters t.height t.unit)
    (sortByWeightDesc (l.filter (fun c => !truthyId c.stackTargetId)))
    ⟨[], [], 0, 0⟩
  simp only [List.map_nil] at herase
  refine ⟨sortByWeightDesc_sorted _, fun w => sortByWeightDesc_stable _ w,
    ?_, ?_⟩
  · obtain ⟨accP, acc, rej, hperm, hmap, hpl, ho⟩ :=
      stackFold_partition (toMeters t.height t.unit)
        (l.filter (fun c => truthyId c.stackTargetId))
        ⟨((sortByWeightDesc (l.filter (fun c => !truthyId c.stackTargetId))).foldl
            (floorStep (toMeters t.length t.unit) (toMeters t.width t.unit)
              (toMeters t.height t.unit)) ⟨[], [], 0, 0⟩).placed,
          ((sortByWeightDesc (l.filter (fun c => !truthyId c.stackTargetId))).foldl
            (floorStep (toMeters t.length t.unit) (toMeters t.width t.unit)
              (toMeters t.height t.unit)) ⟨[], [], 0, 0⟩).overflow⟩
    refine ⟨accP, ?_⟩
    show ((l.filter (fun c => truthyId c.stackTargetId)).foldl
        (stackStep (toMeters t.height t.unit)) _).placed = _
    rw [hpl]
    simp only
    rw [herase]
  · intro pc qc hpc hqc hsame hx
    have hPW := floorFoldL_pairwise (toMeters t.length t.unit)
      (toMeters t.width t.unit) (toMeters t.height t.unit)
      (sortByWeightDesc (l.filter (fun c => !truthyId c.stackTargetId)))
      ⟨[], [], 0, 0⟩
      (fun c hc => hlen c
        (List.mem_of_mem_filter ((sortByWeightDesc_perm _).subset hc)))
      (sortByWeightDesc_sorted _) (by simp) (by simp) (by simp)
    rcases mem_mem_sublist_or hpc hqc with heq | hs | hs
    · rw [heq] at hx; exact absurd hx (lt_irrefl _)
    · have hR : LaneOrd pc qc := by
        have h2 := List.Pairwise.sublist hs hPW
        exact (List.pairwise_cons.mp h2).1 qc (by simp)
      exact (hR hsame).2
    · have hR : LaneOrd qc pc := by
        have h2 := List.Pairwise.sublist hs hPW
        exact (List.pairwise_cons.mp h2).1 pc (by simp)
      exact absurd hx (not_lt.mpr ((hR hsame.symm).1))

/-- Witness for C8 at two floor crates (100 kg then 90 kg). -/
theorem same_lane_weight_ordering_witness :
    (∀ c ∈ [crate1, crate2], 0 ≤ lenM c) ∧
    (SortedByWeightDesc
      (sortByWeightDesc ([crate1, crate2].filter
        (fun c => !truthyId c.stackTargetId))) ∧
    (∀ w : ℚ,
      (sortByWeightDesc ([crate1, crate2].filter
          (fun c => !truthyId c.stackTargetId))).filter
          (fun d => d.weight == w) =
        ([crate1, crate2].filter (fun c => !truthyId c.stackTargetId)).filter
          (fun d => d.weight == w)) ∧
    (∃ rest, (packCrates truckA [crate1, crate2]).placed =
      ((sortByWeightDesc ([crate1, crate2].filter
          (fun c => !truthyId c.stackTargetId))).foldl
        (floorStepL (toMeters truckA.length truckA.unit)
          (toMeters truckA.width truckA.unit)
          (toMeters truckA.height truckA.unit)) ⟨[], [], 0, 0⟩).placed.map
        Prod.fst ++ rest) ∧
    (∀ pc qc : Placed × Lane,
      pc ∈ ((sortByWeightDesc ([crate1, crate2].filter
          (fun c => !truthyId c.stackTargetId))).foldl
        (floorStepL (toMeters truckA.length truckA.unit)
          (toMeters truckA.width truckA.unit)
          (toMeters truckA.height truckA.unit)) ⟨[], [], 0, 0⟩).placed →
      qc ∈ ((sortByWeightDesc ([crate1, crate2].filter
          (fun c => !truthyId c.stackTargetId))).foldl
        (floorStepL (toMeters truckA.length truckA.unit)
          (toMeters truckA.width truckA.unit)
          (toMeters truckA.height truckA.unit)) ⟨[], [], 0, 0⟩).placed →
      pc.2 = qc.2 → pc.1.position.x < qc.1.position.x →
      qc.1.weight ≤ pc.1.weight)) :=
  ⟨by norm_num [crate1, crate2, lenM, toMeters],
    same_lane_weight_ordering truckA [crate1, crate2]
      (by norm_num [crate1, crate2, lenM, toMeters])⟩

/-! ### Overflow accumulator lemmas (C9) -/

theorem floorFold_overflow_acc (tl tw th : ℚ) (q : List Crate) :
    ∀ (p : List Placed) (o o' : List ℤ) (cL cR : ℚ),
    q.foldl (floorStep tl tw th) ⟨p, o ++ o', cL, cR⟩ =
      ⟨(q.foldl (floorStep tl tw th) ⟨p, o', cL, cR⟩).placed,
        o ++ (q.foldl (floorStep tl tw th) ⟨p, o', cL, cR⟩).overflow,
        (q.foldl (floorStep tl tw th) ⟨p, o', cL, cR⟩).curL,
        (q.foldl (floorStep tl tw th) ⟨p, o', cL, cR⟩).curR⟩ := by
  induction q with
  | nil => intro p o o' cL cR; rfl
  | cons d q' ih =>
    intro p o o' cL cR
    rw [List.foldl_cons, List.foldl_cons]
    by_cases h1 : heiM d > th
    · have e1 : floorStep tl tw th ⟨p, o ++ o', cL, cR⟩ d =
          ⟨p, o ++ (o' ++ [d.id]), cL, cR⟩ := by
        rw [floorStep_eq]; simp [h1]
      have e2 : floorStep tl tw th ⟨p, o', cL, cR⟩ d =
          ⟨p, o' ++ [d.id], cL, cR⟩ := by
        rw [floorStep_eq]; simp [h1]
      rw [e1, e2, ih]
    · by_cases h2 : (if cL ≤ cR then cL else cR) + lenM d > tl ∨ widM d > tw
      · have e1 : floorStep tl tw th ⟨p, o ++ o', cL, cR⟩ d =
            ⟨p, o ++ (o' ++ [d.id]), cL, cR⟩ := by
          rw [floorStep_eq]; simp [h1, h2]
        have e2 : floorStep tl tw th ⟨p, o', cL, cR⟩ d =
            ⟨p, o' ++ [d.id], cL, cR⟩ := by
          rw [floorStep_eq]; simp [h1, h2]
        rw [e1, e2, ih]
      · have e1 : floorStep tl tw th ⟨p, o ++ o', cL, cR⟩ d =
            ⟨p ++ [⟨d, ⟨(if cL ≤ cR then cL else cR) + lenM d / 2, heiM d / 2,
              if cL ≤ cR then widM d / 2 else tw - widM d / 2⟩⟩],
              o ++ o',
              if cL ≤ cR then cL + lenM d else cL,
              if cL ≤ cR then cR else cR + lenM d⟩ := by
          rw [floorStep_eq]; simp [h1, h2]
        have e2 : floorStep tl tw th ⟨p, o', cL, cR⟩ d =
            ⟨p ++ [⟨d, ⟨(if cL ≤ cR then cL else cR) + lenM d / 2, heiM d / 2,
              if cL ≤ cR then widM d / 2 else tw - widM d / 2⟩⟩],
              o',
              if cL ≤ cR then cL + lenM d else cL,
              if cL ≤ cR then cR else cR + lenM d⟩ := by
          rw [floorStep_eq]; simp [h1, h2]
        rw [e1, e2, ih]

theorem floorFold_overflow_base (tl tw th : ℚ) (q : List Crate)
    (p : List Placed) (o : List ℤ) (cL cR : ℚ) :
    q.foldl (floorStep tl tw th) ⟨p, o, cL, cR⟩ =
      ⟨(q.foldl (floorStep tl tw th) ⟨p, [], cL, cR⟩).placed,
        o ++ (q.foldl (floorStep tl tw th) ⟨p, [], cL, cR⟩).overflow,
        (q.foldl (floorStep tl tw th) ⟨p, [], cL, cR⟩).curL,
        (q.foldl (floorStep tl tw th) ⟨p, [], cL, cR⟩).curR⟩ := by
  have h := floorFold_overflow_acc tl tw th q p o [] cL cR
  simpa using h

theorem stackFold_overflow_acc (th : ℚ) (q : List Crate) :
    ∀ (p : List Placed) (o o' : List ℤ),
    q.foldl (stackStep th) ⟨p, o ++ o'⟩ =
      ⟨(q.foldl (stackStep th) ⟨p, o'⟩).placed,
        o ++ (q.foldl (stackStep th) ⟨p, o'⟩).overflow⟩ := by
  induction q with
  | nil => intro p o o'; rfl
  | cons d q' ih =>
    intro p o o'
    rw [List.foldl_cons, List.foldl_cons]
    rcases hfind : p.find? (fun pp => some pp.id == d.stackTargetId) with _ | base
    · have e1 : stackStep th ⟨p, o ++ o'⟩ d = ⟨p, o ++ (o' ++ [d.id])⟩ := by
        rw [stackStep_eq]
        simp only [hfind]
        simp
      have e2 : stackStep th ⟨p, o'⟩ d = ⟨p, o' ++ [d.id]⟩ := by
        rw [stackStep_eq]
        simp only [hfind]
      rw [e1, e2, ih]
    · by_cases hh : base.position.y + heiM base.toCrate / 2 + heiM d / 2 +
          heiM d / 2 > th
      · have e1 : stackStep th ⟨p, o ++ o'⟩ d = ⟨p, o ++ (o' ++ [d.id])⟩ := by
          rw [stackStep_eq]
          simp only [hfind]
          simp [hh]
        have e2 : stackStep th ⟨p, o'⟩ d = ⟨p, o' ++ [d.id]⟩ := by
          rw [stackStep_eq]
          simp only [hfind]
          simp [hh]
        rw [e1, e2, ih]
      · have e1 : stackStep th ⟨p, o ++ o'⟩ d =
            ⟨p ++ [⟨d, ⟨base.position.x,
              base.position.y + heiM base.toCrate / 2 + heiM d / 2,
              base.position.z⟩⟩], o ++ o'⟩ := by
          rw [stackStep_eq]
          simp only [hfind]
          simp [hh]
        have e2 : stackStep th ⟨p, o'⟩ d =
            ⟨p ++ [⟨d, ⟨base.position.x,
              base.position.y + heiM base.toCrate / 2 + heiM d / 2,
              base.position.z⟩⟩], o'⟩ := by
          rw [stackStep_eq]
          simp only [hfind]
          simp [hh]
        rw [e1, e2, ih]

theorem stackFold_overflow_base (th : ℚ) (q : List Crate)
    (p : List Placed) (o : List ℤ) :
    q.foldl (stackStep th) ⟨p, o⟩ =
      ⟨(q.foldl (stackStep th) ⟨p, []⟩).placed,
        o ++ (q.foldl (stackStep th) ⟨p, []⟩).overflow⟩ := by
  have h := stackFold_overflow_acc th q p o []
  simpa using h

theorem packCrates_unfold (t : Truck) (l : List Crate) :
    packCrates t l =
      ⟨((l.filter (fun c => truthyId c.stackTargetId)).foldl
          (stackStep (toMeters t.height t.unit))
          ⟨((sortByWeightDesc (l.filter (fun c => !truthyId c.stackTargetId))).foldl
              (floorStep (toMeters t.length t.unit) (toMeters t.width t.unit)
                (toMeters t.height t.unit)) ⟨[], [], 0, 0⟩).placed,
            ((sortByWeightDesc (l.filter (fun c => !truthyId c.stackTargetId))).foldl
              (floorStep (toMeters t.length t.unit) (toMeters t.width t.unit)
                (toMeters t.height t.unit)) ⟨[], [], 0, 0⟩).overflow⟩).placed,
        ((l.filter (fun c => truthyId c.stackTargetId)).foldl
          (stackStep (toMeters t.height t.unit))
          ⟨((sortByWeightDesc (l.filter (fun c => !truthyId c.stackTargetId))).foldl
              (floorStep (toMeters t.length t.unit) (toMeters t.width t.unit)
                (toMeters t.height t.unit)) ⟨[], [], 0, 0⟩).placed,
            ((sortByWeightDesc (l.filter (fun c => !truthyId c.stackTargetId))).foldl
              (floorStep (toMeters t.length t.unit) (toMeters t.width t.unit)
                (toMeters t.height t.unit)) ⟨[], [], 0, 0⟩).overflow⟩).overflow⟩ :=
  rfl

/-- C9. Overflow neutrality: an overflowed floor crate `c` has no effect on
the rest of the plan — removing it yields the identical placed list and
the same overflow ids with `c.id` spliced out. -/
theorem overflow_neutrality (t : Truck) (l1 l2 : List Crate) (c : Crate)
    (hnod : (((l1 ++ c :: l2).map (·.id)).Nodup))
    (hfloor : truthyId c.stackTargetId = false)
    (hovf : c.id ∈ (packCrates t (l1 ++ c :: l2)).overflowIds) :
    (packCrates t (l1 ++ l2)).placed =
      (packCrates t (l1 ++ c :: l2)).placed ∧
    ∃ o1 o2, (packCrates t (l1 ++ c :: l2)).overflowIds = o1 ++ c.id :: o2 ∧
      (packCrates t (l1 ++ l2)).overflowIds = o1 ++ o2 ∧
      c.id ∉ o1 ∧ c.id ∉ o2 := by
  -- id bookkeeping from the uniqueness hypothesis
  have hnod' := hnod
  rw [List.map_append, List.map_cons] at hnod'
  obtain ⟨hnd1, hnd2, hdisj⟩ := List.nodup_append.mp hnod'
  have hcid1 : c.id ∉ l1.map (·.id) := fun h => hdisj h (by simp)
  have hcid2 : c.id ∉ l2.map (·.id) := (List.nodup_cons.mp hnd2).1
  have hc1 : c ∉ l1 := fun h => hcid1 (List.mem_map_of_mem _ h)
  have hc2 : c ∉ l2 := fun h => hcid2 (List.mem_map_of_mem _ h)
  -- filter decompositions
  have hfL : (l1 ++ c :: l2).filter (fun d => !truthyId d.stackTargetId) =
      l1.filter (fun d => !truthyId d.stackTargetId) ++
        c :: l2.filter (fun d => !truthyId d.stackTargetId) := by
    simp [List.filter_append, List.filter_cons, hfloor]
  have hfL' : (l1 ++ l2).filter (fun d => !truthyId d.stackTargetId) =
      l1.filter (fun d => !truthyId d.stackTargetId) ++
        l2.filter (fun d => !truthyId d.stackTargetId) := by
    simp [List.filter_append]
  have hsL : (l1 ++ c :: l2).filter (fun d => truthyId d.stackTargetId) =
      l1.filter (fun d => truthyId d.stackTargetId) ++
        l2.filter (fun d => truthyId d.stackTargetId) := by
    simp [List.filter_append, List.filter_cons, hfloor]
  have hsL' : (l1 ++ l2).filter (fun d => truthyId d.stackTargetId) =
      l1.filter (fun d => truthyId d.stackTargetId) ++
        l2.filter (fun d => truthyId d.stackTargetId) := by
    simp [List.filter_append]
  have hcf1 : c ∉ l1.filter (fun d => !truthyId d.stackTargetId) :=
    fun h => hc1 (List.mem_of_mem_filter h)
  have hcf2 : c ∉ l2.filter (fun d => !truthyId d.stackTargetId) :=
    fun h => hc2 (List.mem_of_mem_filter h)
  -- sort splice
  obtain ⟨s1, s2, hspl1, hspl2⟩ := sortByWeightDesc_splice c
    (l1.filter (fun d => !truthyId d.stackTargetId))
    (l2.filter (fun d => !truthyId d.stackTargetId))
  -- the shared floor prefix state
  have hrej : floorStep (toMeters t.length t.unit) (toMeters t.width t.unit)
      (toMeters t.height t.unit)
      (s1.foldl (floorStep (toMeters t.length t.unit)
        (toMeters t.width t.unit) (toMeters t.height t.unit)) ⟨[], [], 0, 0⟩) c =
      ⟨(s1.foldl (floorStep (toMeters t.length t.unit)
          (toMeters t.width t.unit) (toMeters t.height t.unit))
          ⟨[], [], 0, 0⟩).placed,
        (s1.foldl (floorStep (toMeters t.length t.unit)
          (toMeters t.width t.unit) (toMeters t.height t.unit))
          ⟨[], [], 0, 0⟩).overflow ++ [c.id],
        (s1.foldl (floorStep (toMeters t.length t.unit)
          (toMeters t.width t.unit) (toMeters t.height t.unit))
          ⟨[], [], 0, 0⟩).curL,
        (s1.foldl (floorStep (toMeters t.length t.unit)
          (toMeters t.width t.unit) (toMeters t.height t.unit))
          ⟨[], [], 0, 0⟩).curR⟩ := by
    set tl := toMeters t.length t.unit
    set tw := toMeters t.width t.unit
    set th := toMeters t.height t.unit
    set A := s1.foldl (floorStep tl tw th) ⟨[], [], 0, 0⟩ with hA
    by_cases h1 : heiM c > th
    · rw [floorStep_eq]; simp [h1]
    · by_cases h2 : (if A.curL ≤ A.curR then A.curL else A.curR) + lenM c >
          tl ∨ widM c > tw
      · rw [floorStep_eq]; simp [h1, h2]
      · -- the accepted case contradicts `c.id ∈ overflowIds`
        exfalso
        have hacc : floorStep tl tw th A c =
            ⟨A.placed ++
              [⟨c, ⟨(if A.curL ≤ A.curR then A.curL else A.curR) + lenM c / 2,
                heiM c / 2,
                if A.curL ≤ A.curR then widM c / 2 else tw - widM c / 2⟩⟩],
              A.overflow,
              if A.curL ≤ A.curR then A.curL + lenM c else A.curL,
              if A.curL ≤ A.curR then A.curR else A.curR + lenM c⟩ := by
          rw [floorStep_eq]; simp [h1, h2]
        -- the new entry survives the rest of the floor pass
        obtain ⟨accP, acc2, rej2, _, _, hpl2, _⟩ :=
          floorFold_partition tl tw th s2 (floorStep tl tw th A c)
        have he2 : (⟨c, ⟨(if A.curL ≤ A.curR then A.curL else A.curR) +
            lenM c / 2, heiM c / 2,
            if A.curL ≤ A.curR then widM c / 2 else tw - widM c / 2⟩⟩ :
            Placed) ∈ (s2.foldl (floorStep tl tw th)
              (floorStep tl tw th A c)).placed := by
          rw [hpl2, hacc]
          simp
        -- and the whole stacking pass
        have hffW : (sortByWeightDesc ((l1 ++ c :: l2).filter
            (fun d => !truthyId d.stackTargetId))).foldl
            (floorStep tl tw th) ⟨[], [], 0, 0⟩ =
            s2.foldl (floorStep tl tw th) (floorStep tl tw th A c) := by
          rw [hfL, hspl1, List.foldl_append, List.foldl_cons]
        obtain ⟨accSP, accS, rejS, _, _, hpl3, _⟩ :=
          stackFold_partition th
            ((l1 ++ c :: l2).filter (fun d => truthyId d.stackTargetId))
            ⟨((sortByWeightDesc ((l1 ++ c :: l2).filter
                (fun d => !truthyId d.stackTargetId))).foldl
                (floorStep tl tw th) ⟨[], [], 0, 0⟩).placed,
              ((sortByWeightDesc ((l1 ++ c :: l2).filter
                (fun d => !truthyId d.stackTargetId))).foldl
                (floorStep tl tw th) ⟨[], [], 0, 0⟩).overflow⟩
        have he5 : (⟨c, ⟨(if A.curL ≤ A.curR then A.curL else A.curR) +
            lenM c / 2, heiM c / 2,
            if A.curL ≤ A.curR then widM c / 2 else tw - widM c / 2⟩⟩ :
            Placed) ∈ (packCrates t (l1 ++ c :: l2)).placed := by
          rw [packCrates_unfold]
          simp only
          rw [hpl3]
          simp only
          apply List.mem_append_left
          rw [hffW]
          exact he2
        have hid : c.id ∈ (packCrates t (l1 ++ c :: l2)).placed.map (·.id) :=
          List.mem_map_of_mem (fun p => p.id) he5
        exact (List.nodup_append.mp
          (packCrates_ids_nodup t (l1 ++ c :: l2) hnod)).2.2 hid hovf
  -- full run equations
  have hW : packCrates t (l1 ++ c :: l2) =
      ⟨((l1.filter (fun d => truthyId d.stackTargetId) ++
          l2.filter (fun d => truthyId d.stackTargetId)).foldl
          (stackStep (toMeters t.height t.unit))
          ⟨(s2.foldl (floorStep (toMeters t.length t.unit)
              (toMeters t.width t.unit) (toMeters t.height t.unit))
              ⟨(s1.foldl (floorStep (toMeters t.length t.unit)
                  (toMeters t.width t.unit) (toMeters t.height t.unit))
                  ⟨[], [], 0, 0⟩).placed, [],
                (s1.foldl (floorStep (toMeters t.length t.unit)
                  (toMeters t.width t.unit) (toMeters t.height t.unit))
                  ⟨[], [], 0, 0⟩).curL,
                (s1.foldl (floorStep (toMeters t.length t.unit)
                  (toMeters t.width t.unit) (toMeters t.height t.unit))
                  ⟨[], [], 0, 0⟩).curR⟩).placed, []⟩).placed,
        (((s1.foldl (floorStep (toMeters t.length t.unit)
            (toMeters t.width t.unit) (toMeters t.height t.unit))
            ⟨[], [], 0, 0⟩).overflow ++ [c.id]) ++
          (s2.foldl (floorStep (toMeters t.length t.unit)
            (toMeters t.width t.unit) (toMeters t.height t.unit))
            ⟨(s1.foldl (floorStep (toMeters t.length t.unit)
                (toMeters t.width t.unit) (toMeters t.height t.unit))
                ⟨[], [], 0, 0⟩).placed, [],
              (s1.foldl (floorStep (toMeters t.length t.unit)
                (toMeters t.width t.unit) (toMeters t.height t.unit))
                ⟨[], [], 0, 0⟩).curL,
              (s1.foldl (floorStep (toMeters t.length t.unit)
                (toMeters t.width t.unit) (toMeters t.height t.unit))
                ⟨[], [], 0, 0⟩).curR⟩).overflow) ++
          ((l1.filter (fun d => truthyId d.stackTargetId) ++
            l2.filter (fun d => truthyId d.stackTargetId)).foldl
            (stackStep (toMeters t.height t.unit))
            ⟨(s2.foldl (floorStep (toMeters t.length t.unit)
                (toMeters t.width t.unit) (toMeters t.height t.unit))
                ⟨(s1.foldl (floorStep (toMeters t.length t.unit)
                    (toMeters t.width t.unit) (toMeters t.height t.unit))
                    ⟨[], [], 0, 0⟩).placed, [],
                  (s1.foldl (floorStep (toMeters t.length t.unit)
                    (toMeters t.width t.unit) (toMeters t.height t.unit))
                    ⟨[], [], 0, 0⟩).curL,
                  (s1.foldl (floorStep (toMeters t.length t.unit)
                    (toMeters t.width t.unit) (toMeters t.height t.unit))
                    ⟨[], [], 0, 0⟩).curR⟩).placed, []⟩).overflow⟩ := by
    rw [packCrates_unfold, hfL, hspl1, List.foldl_append, List.foldl_cons,
      hrej, floorFold_overflow_base, hsL]
    simp only
    rw [stackFold_overflow_base]
  have hWO : packCrates t (l1 ++ l2) =
      ⟨((l1.filter (fun d => truthyId d.stackTargetId) ++
          l2.filter (fun d => truthyId d.stackTargetId)).foldl
          (stackStep (toMeters t.height t.unit))
          ⟨(s2.foldl (floorStep (toMeters t.length t.unit)
              (toMeters t.width t.unit) (toMeters t.height t.unit))
              ⟨(s1.foldl (floorStep (toMeters t.length t.unit)
                  (toMeters t.width t.unit) (toMeters t.height t.unit))
                  ⟨[], [], 0, 0⟩).placed, [],
                (s1.foldl (floorStep (toMeters t.length t.unit)
                  (toMeters t.width t.unit) (toMeters t.height t.unit))
                  ⟨[], [], 0, 0⟩).curL,
                (s1.foldl (floorStep (toMeters t.length t.unit)
                  (toMeters t.width t.unit) (toMeters t.height t.unit))
                  ⟨[], [], 0, 0⟩).curR⟩).placed, []⟩).placed,
        ((s1.foldl (floorStep (toMeters t.length t.unit)
            (toMeters t.width t.unit) (toMeters t.height t.unit))
            ⟨[], [], 0, 0⟩).overflow ++
          (s2.foldl (floorStep (toMeters t.length t.unit)
            (toMeters t.width t.unit) (toMeters t.height t.unit))
            ⟨(s1.foldl (floorStep (toMeters t.length t.unit)
                (toMeters t.width t.unit) (toMeters t.height t.unit))
                ⟨[], [], 0, 0⟩).placed, [],
              (s1.foldl (floorStep (toMeters t.length t.unit)
                (toMeters t.width t.unit) (toMeters t.height t.unit))
                ⟨[], [], 0, 0⟩).curL,
              (s1.foldl (floorStep (toMeters t.length t.unit)
                (toMeters t.width t.unit) (toMeters t.height t.unit))
                ⟨[], [], 0, 0⟩).curR⟩).overflow) ++
          ((l1.filter (fun d => truthyId d.stackTargetId) ++
            l2.filter (fun d => truthyId d.stackTargetId)).foldl
            (stackStep (toMeters t.height t.unit))
            ⟨(s2.foldl (floorStep (toMeters t.length t.unit)
                (toMeters t.width t.unit) (toMeters t.height t.unit))
                ⟨(s1.foldl (floorStep (toMeters t.length t.unit)
                    (toMeters t.width t.unit) (toMeters t.height t.unit))
                    ⟨[], [], 0, 0⟩).placed, [],
                  (s1.foldl (floorStep (toMeters t.length t.unit)
                    (toMeters t.width t.unit) (toMeters t.height t.unit))
                    ⟨[], [], 0, 0⟩).curL,
                  (s1.foldl (floorStep (toMeters t.length t.unit)
                    (toMeters t.width t.unit) (toMeters t.height t.unit))
                    ⟨[], [], 0, 0⟩).curR⟩).placed, []⟩).overflow⟩ := by
    rw [packCrates_unfold, hfL', hspl2, List.foldl_append]
    have hbase : s2.foldl (floorStep (toMeters t.length t.unit)
        (toMeters t.width t.unit) (toMeters t.height t.unit))
        (s1.foldl (floorStep (toMeters t.length t.unit)
          (toMeters t.width t.unit) (toMeters t.height t.unit))
          ⟨[], [], 0, 0⟩) =
        ⟨(s2.foldl (floorStep (toMeters t.length t.unit)
            (toMeters t.width t.unit) (toMeters t.height t.unit))
            ⟨(s1.foldl (floorStep (toMeters t.length t.unit)
                (toMeters t.width t.unit) (toMeters t.height t.unit))
                ⟨[], [], 0, 0⟩).placed, [],
              (s1.foldl (floorStep (toMeters t.length t.unit)
                (toMeters t.width t.unit) (toMeters t.height t.unit))
                ⟨[], [], 0, 0⟩).curL,
              (s1.foldl (floorStep (toMeters t.length t.unit)
                (toMeters t.width t.unit) (toMeters t.height t.unit))
                ⟨[], [], 0, 0⟩).curR⟩).placed,
          (s1.foldl (floorStep (toMeters t.length t.unit)
            (toMeters t.width t.unit) (toMeters t.height t.unit))
            ⟨[], [], 0, 0⟩).overflow ++
            (s2.foldl (floorStep (toMeters t.length t.unit)
              (toMeters t.width t.unit) (toMeters t.height t.unit))
              ⟨(s1.foldl (floorStep (toMeters t.length t.unit)
                  (toMeters t.width t.unit) (toMeters t.height t.unit))
                  ⟨[], [], 0, 0⟩).placed, [],
                (s1.foldl (floorStep (toMeters t.length t.unit)
                  (toMeters t.width t.unit) (toMeters t.height t.unit))
                  ⟨[], [], 0, 0⟩).curL,
                (s1.foldl (floorStep (toMeters t.length t.unit)
                  (toMeters t.width t.unit) (toMeters t.height t.unit))
                  ⟨[], [], 0, 0⟩).curR⟩).overflow,
          (s2.foldl (floorStep (toMeters t.length t.unit)
            (toMeters t.width t.unit) (toMeters t.height t.unit))
            ⟨(s1.foldl (floorStep (toMeters t.length t.unit)
                (toMeters t.width t.unit) (toMeters t.height t.unit))
                ⟨[], [], 0, 0⟩).placed, [],
              (s1.foldl (floorStep (toMeters t.length t.unit)
                (toMeters t.width t.unit) (toMeters t.height t.unit))
                ⟨[], [], 0, 0⟩).curL,
              (s1.foldl (floorStep (toMeters t.length t.unit)
                (toMeters t.width t.unit) (toMeters t.height t.unit))
                ⟨[], [], 0, 0⟩).curR⟩).curL,
          (s2.foldl (floorStep (toMeters t.length t.unit)
            (toMeters t.width t.unit) (toMeters t.height t.unit))
            ⟨(s1.foldl (floorStep (toMeters t.length t.unit)
                (toMeters t.width t.unit) (toMeters t.height t.unit))
                ⟨[], [], 0, 0⟩).placed, [],
              (s1.foldl (floorStep (toMeters t.length t.unit)
                (toMeters t.width t.unit) (toMeters t.height t.unit))
                ⟨[], [], 0, 0⟩).curL,
              (s1.foldl (floorStep (toMeters t.length t.unit)
                (toMeters t.width t.unit) (toMeters t.height t.unit))
                ⟨[], [], 0, 0⟩).curR⟩).curR⟩ :=
      floorFold_overflow_base (toMeters t.length t.unit)
        (toMeters t.width t.unit) (toMeters t.height t.unit) s2 _ _ _ _
    rw [hbase, hsL']
    simp only
    rw [stackFold_overflow_base]
  -- conclusions
  constructor
  · rw [hW, hWO]
  · refine ⟨(s1.foldl (floorStep (toMeters t.length t.unit)
        (toMeters t.width t.unit) (toMeters t.height t.unit))
        ⟨[], [], 0, 0⟩).overflow,
      (s2.foldl (floorStep (toMeters t.length t.unit)
          (toMeters t.width t.unit) (toMeters t.height t.unit))
          ⟨(s1.foldl (floorStep (toMeters t.length t.unit)
              (toMeters t.width t.unit) (toMeters t.height t.unit))
              ⟨[], [], 0, 0⟩).placed, [],
            (s1.foldl (floorStep (toMeters t.length t.unit)
              (toMeters t.width t.unit) (toMeters t.height t.unit))
              ⟨[], [], 0, 0⟩).curL,
            (s1.foldl (floorStep (toMeters t.length t.unit)
              (toMeters t.width t.unit) (toMeters t.height t.unit))
              ⟨[], [], 0, 0⟩).curR⟩).overflow ++
        ((l1.filter (fun d => truthyId d.stackTargetId) ++
          l2.filter (fun d => truthyId d.stackTargetId)).foldl
          (stackStep (toMeters t.height t.unit))
          ⟨(s2.foldl (floorStep (toMeters t.length t.unit)
              (toMeters t.width t.unit) (toMeters t.height t.unit))
              ⟨(s1.foldl (floorStep (toMeters t.length t.unit)
                  (toMeters t.width t.unit) (toMeters t.height t.unit))
                  ⟨[], [], 0, 0⟩).placed, [],
                (s1.foldl (floorStep (toMeters t.length t.unit)
                  (toMeters t.width t.unit) (toMeters t.height t.unit))
                  ⟨[], [], 0, 0⟩).curL,
                (s1.foldl (floorStep (toMeters t.length t.unit)
                  (toMeters t.width t.unit) (toMeters t.height t.unit))
                  ⟨[], [], 0, 0⟩).curR⟩).placed, []⟩).overflow, ?_, ?_, ?_, ?_⟩
    · rw [hW]; simp [List.append_assoc]
    · rw [hWO]; simp [List.append_assoc]
    · intro habs
      have hmem : c.id ∈ (packCrates t (l1 ++ l2)).overflowIds := by
        rw [hWO]
        simp only
        exact List.mem_append_left _ (List.mem_append_left _ habs)
      have hin : c.id ∈ (l1 ++ l2).map (·.id) :=
        (packCrates_ids_perm t (l1 ++ l2)).subset
          (List.mem_append_right _ hmem)
      rw [List.map_append] at hin
      rcases List.mem_append.mp hin with h | h
      · exact hcid1 h
      · exact hcid2 h
    · intro habs
      have hmem : c.id ∈ (packCrates t (l1 ++ l2)).overflowIds := by
        rw [hWO]
        simp only
        rcases List.mem_append.mp habs with h | h
        · exact List.mem_append_left _ (List.mem_append_right _ h)
        · exact List.mem_append_right _ h
      have hin : c.id ∈ (l1 ++ l2).map (·.id) :=
        (packCrates_ids_perm t (l1 ++ l2)).subset
          (List.mem_append_right _ hmem)
      rw [List.map_append] at hin
      rcases List.mem_append.mp hin with h | h
      · exact hcid1 h
      · exact hcid2 h

/-- Witness for C9: removing the overflowing tall crate leaves the other
two crates' placement untouched. -/
theorem overflow_neutrality_witness :
    ((([crate1] ++ crateTall :: [crate2]).map (·.id)).Nodup) ∧
    truthyId crateTall.stackTargetId = false ∧
    crateTall.id ∈
      (packCrates truckA ([crate1] ++ crateTall :: [crate2])).overflowIds ∧
    ((packCrates truckA ([crate1] ++ [crate2])).placed =
      (packCrates truckA ([crate1] ++ crateTall :: [crate2])).placed ∧
    ∃ o1 o2,
      (packCrates truckA ([crate1] ++ crateTall :: [crate2])).overflowIds =
        o1 ++ crateTall.id :: o2 ∧
      (packCrates truckA ([crate1] ++ [crate2])).overflowIds = o1 ++ o2 ∧
      crateTall.id ∉ o1 ∧ crateTall.id ∉ o2) :=
  ⟨by decide, rfl,
    by norm_num [packCrates, truckA, crate1, crate2, crateTall,
      sortByWeightDesc, insertDesc, floorStep, stackStep, truthyId,
      lenM, widM, heiM, toMeters],
    overflow_neutrality truckA [crate1] [crate2] crateTall (by decide) rfl
      (by norm_num [packCrates, truckA, crate1, crate2, crateTall,
        sortByWeightDesc, insertDesc, floorStep, stackStep, truthyId,
        lenM, widM, heiM, toMeters])⟩

end LogisticPlanner
